import Mathlib

/-!
A shallow embedding, in Lean, of the library-indexing and tag-taxonomy core of
the Vibe-CBR-Reader repository, together with theorems settling the frozen
claims about it.  Python functions are translated into executable Lean
definitions: strings are Lean strings, SQLite rows are structures with
`Option` fields for nullable columns, dictionaries are association lists, and
Python while-loops are fuel-indexed recursions whose fuel is shown (or chosen)
to be adequate.  Each definition carries a comment naming the source function
it embeds.
-/

namespace VibeCBR

/-! ### Basic character and list helpers -/

/-- Characters matched by the character class a-z0-9 used in
the Python regular expressions of src/db/series.py. -/
def isLowAlnum (c : Char) : Bool :=
  c.isLower || c.isDigit

/-- Lexicographic comparison of character lists by code point, the comparison
Python uses for strings. -/
def lexCmp : List Char → List Char → Ordering
  | [], [] => Ordering.eq
  | [], _ :: _ => Ordering.lt
  | _ :: _, [] => Ordering.gt
  | a :: as, b :: bs =>
    match compare a b with
    | Ordering.eq => lexCmp as bs
    | o => o

/-- Python string comparison. -/
def strCmp (a b : String) : Ordering :=
  lexCmp a.toList b.toList

/-! ### natural_sort_key (src/scanner/utils.py lines 14-16, src/scanner.py 75-77)

Python: `re.split(r'(\d+)', s)` splits a string into an alternating list of
non-digit text parts and maximal digit runs (captured), beginning and ending
with a possibly empty text part.  The key maps digit runs to ints and text
parts to their lowercase form.  We first group the characters of the string
into maximal same-class runs and then interleave, inserting the empty text
parts that `re.split` produces around leading/trailing/adjacent digit runs. -/

/-- One element of the Python sort key list: either a lowered text part or the
integer value of a digit run. -/
inductive NatKeyElem where
  | text (s : String)
  | num (n : Nat)
deriving Repr, DecidableEq

/-- Numeric value of a digit run, as Python int() of the matched text. -/
def digitsToNat (run : List Char) : Nat :=
  run.foldl (fun n c => n * 10 + (c.toNat - 48)) 0

/-- Group characters into maximal runs of the same digit-class
(the Bool records whether the run is a digit run). -/
def pushChar (c : Char) : List (Bool × List Char) → List (Bool × List Char)
  | [] => [(c.isDigit, [c])]
  | (b, run) :: rest =>
    if c.isDigit = b then (b, c :: run) :: rest
    else (c.isDigit, [c]) :: (b, run) :: rest

/-- Maximal same-class runs of a character list, in order. -/
def groupRuns (cs : List Char) : List (Bool × List Char) :=
  cs.foldr pushChar []

/-- Lowercase a run and pack it as a string (Python text.lower()). -/
def lowerStr (run : List Char) : String :=
  String.mk (run.map Char.toLower)

/-- Interleave the runs exactly as `re.split(r'(\d+)', s)` followed by the key
comprehension does: digit runs become numbers, text runs are lowered, and an
empty text part appears wherever `re.split` emits one (before a leading digit
run and after a trailing digit run, and for the empty string). -/
def keyFromRuns : List (Bool × List Char) → List NatKeyElem
  | [] => [NatKeyElem.text ""]
  | (true, r) :: rest => NatKeyElem.text "" :: NatKeyElem.num (digitsToNat r) :: keyFromRuns rest
  | (false, r) :: [] => [NatKeyElem.text (lowerStr r)]
  | (false, r) :: (true, r2) :: rest2 =>
      NatKeyElem.text (lowerStr r) :: NatKeyElem.num (digitsToNat r2) :: keyFromRuns rest2
  | (false, r) :: (false, r2) :: rest2 =>
      NatKeyElem.text (lowerStr r) :: keyFromRuns ((false, r2) :: rest2)

/-- natural_sort_key from src/scanner/utils.py (also duplicated verbatim in
src/scanner.py): `[int(text) if text.isdigit() else text.lower() for text in
re.split(r'(\d+)', s)]`. -/
def natural_sort_key (s : String) : List NatKeyElem :=
  keyFromRuns (groupRuns s.toList)

/-- Comparison of two sort-key elements as Python performs it: strings compare
lexicographically, ints numerically, and an int compared with a str raises
TypeError (modelled as `none`). -/
def pyCompare : NatKeyElem → NatKeyElem → Option Ordering
  | NatKeyElem.text a, NatKeyElem.text b => some (strCmp a b)
  | NatKeyElem.num a, NatKeyElem.num b => some (compare a b)
  | _, _ => none

/-- Python list comparison: elementwise, first difference decides, a strict
prefix is smaller; propagates the TypeError of a cross-type element
comparison. -/
def pyListCompare : List NatKeyElem → List NatKeyElem → Option Ordering
  | [], [] => some Ordering.eq
  | [], _ :: _ => some Ordering.lt
  | _ :: _, [] => some Ordering.gt
  | a :: as, b :: bs =>
    match pyCompare a b with
    | none => none
    | some Ordering.eq => pyListCompare as bs
    | some o => some o

/-- Alternation predicate: the list of key elements strictly alternates text
and num elements; the Bool is the class expected at the head (true = num). -/
inductive AltKey : Bool → List NatKeyElem → Prop
  | nil (b : Bool) : AltKey b []
  | text (s : String) (rest : List NatKeyElem) : AltKey true rest → AltKey false (NatKeyElem.text s :: rest)
  | num (n : Nat) (rest : List NatKeyElem) : AltKey false rest → AltKey true (NatKeyElem.num n :: rest)

/-! ### resolve_norm (src/db/series.py lines 11-24)

The Python function walks merge redirections with a visited set:

    visited = {norm}
    while norm in modifications:
        mod = modifications[norm]
        if mod['action'] == 'merge' and mod['target_norm']:
            target = mod['target_norm']
            if target in visited: break
            norm = target
            visited.add(norm)
        else:
            break
    return norm

The while-loop is embedded as a fuel-indexed recursion; the fuel used by the
wrapper is `mods.length + 2`, and the stabilisation theorem below shows any
fuel at least that large computes the same answer, which is the termination
content of the loop. -/

/-- A row of the tag_modifications table: exactly one action
("blacklist", "whitelist" or "merge") with optional target and display. -/
structure TagMod where
  action : String
  target_norm : Option String
  display_name : Option String
deriving Repr, DecidableEq

/-- One iteration of the resolve_norm while-loop: `some target` means the loop
continues with `norm = target` added to the visited set, `none` means the loop
stops (norm not a modification key, action not merge, falsy target, or target
already visited) and the current norm is returned. -/
def resolveStep (mods : List (String × TagMod)) (visited : List String)
    (norm : String) : Option String :=
  match mods.lookup norm with
  | none => none
  | some mod =>
    if mod.action = "merge" then
      match mod.target_norm with
      | some target =>
        if target = "" then none
        else if target ∈ visited then none
        else some target
      | none => none
    else none

/-- The loop of resolve_norm, one fuel unit per iteration. -/
def resolveNormFuel : Nat → String → List String → List (String × TagMod) → String
  | 0, norm, _, _ => norm
  | fuel + 1, norm, visited, mods =>
    match resolveStep mods visited norm with
    | none => norm
    | some target => resolveNormFuel fuel target (target :: visited) mods

/-- resolve_norm from src/db/series.py: the modifications dictionary is an
association list keyed by source norm (its primary key), and the fuel
`mods.length + 2` dominates the loop iteration count. -/
def resolve_norm (norm : String) (mods : List (String × TagMod)) : String :=
  resolveNormFuel (mods.length + 2) norm [norm] mods

/-- Number of modification keys not yet visited: the quantity each continuing
loop iteration strictly decreases (when the next norm is itself a key). -/
def unvisitedKeys (mods : List (String × TagMod)) (visited : List String) : Nat :=
  ((mods.map Prod.fst).filter (fun k => decide (¬ k ∈ visited))).length

/-! ### Python values and a restricted JSON reader

Tag columns hold JSON text and the taxonomy code defends against
double-encoded values, so the embedding works over a type of Python values.
`json.loads` is embedded for the fragment the tag pipeline actually stores and
reads back: arrays, double-quoted strings with simple escapes, integers and
null.  Inputs outside this fragment (floats, objects, exotic escapes) make the
reader fail, which the callers treat exactly like a Python JSON error. -/

/-- A Python value as the tag pipeline sees them: a string, a (possibly
nested) list, an int, or None. -/
inductive PyVal where
  | pstr (s : String)
  | plist (l : List PyVal)
  | pint (n : Int)
  | pnone
deriving Repr

/-- Python truthiness for the values above. -/
def pyTruthy : PyVal → Bool
  | PyVal.pstr s => !s.isEmpty
  | PyVal.plist l => !l.isEmpty
  | PyVal.pint n => !(decide (n = 0))
  | PyVal.pnone => false

/-- Whitespace skipped by the JSON reader. -/
def isJsonWs (c : Char) : Bool :=
  c = ' ' || c = '\t' || c = '\n' || c = '\r'

/-- Characters counted as whitespace by Python str.strip(). -/
def isPyWs (c : Char) : Bool :=
  c = ' ' || c = '\t' || c = '\n' || c = '\r' || c = '\x0b' || c = '\x0c'

def skipWs (cs : List Char) : List Char :=
  cs.dropWhile isJsonWs

/-- Strip characters from both ends of a character list. -/
def stripEnds (p : Char → Bool) (cs : List Char) : List Char :=
  ((cs.dropWhile p).reverse.dropWhile p).reverse

def stripWsChars (cs : List Char) : List Char :=
  stripEnds isPyWs cs

/-- Python str.strip() with no arguments. -/
def stripWs (s : String) : String :=
  String.mk (stripWsChars s.toList)

def startsWithChar (s : String) (c : Char) : Bool :=
  match s.toList with
  | [] => false
  | a :: _ => a = c

def endsWithChar (s : String) (c : Char) : Bool :=
  match s.toList.getLast? with
  | none => false
  | some a => a = c

/-- JSON escape sequences supported by the restricted reader. -/
def escapeChar (c : Char) : Option Char :=
  if c = '"' then some '"'
  else if c = '\\' then some '\\'
  else if c = '/' then some '/'
  else if c = 'n' then some '\n'
  else if c = 't' then some '\t'
  else if c = 'r' then some '\r'
  else none

/-- Read the body of a double-quoted string; returns the contents and the
remaining input after the closing quote. -/
def parseStrChars : List Char → Option (List Char × List Char)
  | [] => none
  | '"' :: rest => some ([], rest)
  | '\\' :: c :: rest =>
    match escapeChar c with
    | none => none
    | some e =>
      match parseStrChars rest with
      | some (s, r) => some (e :: s, r)
      | none => none
  | c :: rest =>
    match parseStrChars rest with
    | some (s, r) => some (c :: s, r)
    | none => none

/-- Read a nonempty run of decimal digits. -/
def parseDigits (cs : List Char) : Option (Nat × List Char) :=
  let ds := cs.takeWhile Char.isDigit
  if ds = [] then none
  else some (digitsToNat ds, cs.dropWhile Char.isDigit)

mutual

/-- Read one JSON value of the restricted grammar.  The fuel bounds the total
number of reader steps; `jsonLoads` passes fuel that dominates it. -/
def parseVal : Nat → List Char → Option (PyVal × List Char)
  | 0, _ => none
  | fuel + 1, cs =>
    match skipWs cs with
    | [] => none
    | '[' :: rest =>
      match parseElems fuel rest with
      | some (vs, r) => some (PyVal.plist vs, r)
      | none => none
    | '"' :: rest =>
      match parseStrChars rest with
      | some (s, r) => some (PyVal.pstr (String.mk s), r)
      | none => none
    | 'n' :: 'u' :: 'l' :: 'l' :: rest => some (PyVal.pnone, rest)
    | '-' :: rest =>
      match parseDigits rest with
      | some (n, r) => some (PyVal.pint (-(n : Int)), r)
      | none => none
    | c :: rest =>
      if c.isDigit then
        match parseDigits (c :: rest) with
        | some (n, r) => some (PyVal.pint (n : Int), r)
        | none => none
      else none

/-- Read the elements of a JSON array after its opening bracket. -/
def parseElems : Nat → List Char → Option (List PyVal × List Char)
  | 0, _ => none
  | fuel + 1, cs =>
    match skipWs cs with
    | ']' :: rest => some ([], rest)
    | cs2 =>
      match parseVal fuel cs2 with
      | none => none
      | some (v, rest) =>
        match skipWs rest with
        | ',' :: rest2 =>
          match parseElems fuel rest2 with
          | some (vs, rest3) => some (v :: vs, rest3)
          | none => none
        | ']' :: rest2 => some ([v], rest2)
        | _ => none

end

/-- json.loads restricted to the grammar above: the whole input must be
consumed. -/
def jsonLoads (s : String) : Option PyVal :=
  match parseVal (2 * s.length + 4) s.toList with
  | some (v, rest) => if skipWs rest = [] then some v else none
  | none => none

/-! ### Tag string helpers (src/db/series.py lines 281-370) -/

/-- Characters stripped by sanitize_tag:
space, tab, newline, CR, double quote, single quote, brackets, slashes,
comma, semicolon and dot. -/
def sanitizeStrip (c : Char) : Bool :=
  c = ' ' || c = '\t' || c = '\n' || c = '\r' || c = '"' || c = '\'' ||
  c = '[' || c = ']' || c = '/' || c = '\\' || c = ',' || c = ';' || c = '.'

/-- sanitize_tag from src/db/series.py: strip wrapping characters and trailing
debris, then strip whitespace. -/
def sanitize_tag (s : String) : String :=
  if s = "" then ""
  else stripWs (String.mk (stripEnds sanitizeStrip s.toList))

/-- Decomposition table for the NFKD + ascii-encode step of normalize_text:
an ASCII character is kept, a common accented letter contributes its base
letter, and any other character is dropped by the ascii encode. -/
def asciiFold (c : Char) : List Char :=
  if c.toNat < 128 then [c]
  else if c ∈ ['á', 'à', 'â', 'ä', 'ã', 'å', 'Á', 'À', 'Â', 'Ä', 'Ã', 'Å'] then ['a']
  else if c ∈ ['é', 'è', 'ê', 'ë', 'É', 'È', 'Ê', 'Ë'] then ['e']
  else if c ∈ ['í', 'ì', 'î', 'ï', 'Í', 'Ì', 'Î', 'Ï'] then ['i']
  else if c ∈ ['ó', 'ò', 'ô', 'ö', 'õ', 'Ó', 'Ò', 'Ô', 'Ö', 'Õ'] then ['o']
  else if c ∈ ['ú', 'ù', 'û', 'ü', 'Ú', 'Ù', 'Û', 'Ü'] then ['u']
  else if c ∈ ['ý', 'ÿ', 'Ý'] then ['y']
  else if c ∈ ['ñ', 'Ñ'] then ['n']
  else if c ∈ ['ç', 'Ç'] then ['c']
  else []

/-- normalize_text from src/db/series.py: NFKD-decompose, drop non-ASCII,
lowercase. -/
def normalize_text (s : String) : String :=
  if s = "" then ""
  else String.mk ((s.toList.flatMap asciiFold).map Char.toLower)

/-- The fixed exception set of singularize. -/
def exceptionsWords : List (List Char) :=
  ["series", "species", "class", "business", "status", "canvas", "glass",
   "grass", "boss", "less", "tennis", "hypnosis"].map String.toList

/-- Python list.endswith-style suffix test on character lists. -/
def endsWithSeq (w suf : List Char) : Bool :=
  decide (suf.length ≤ w.length) && decide (w.drop (w.length - suf.length) = suf)

/-- Python str.replace(pat, "") on character lists: remove non-overlapping
occurrences left to right; the fuel (input length) dominates the recursion. -/
def removeSubFuel : Nat → List Char → List Char → List Char
  | 0, _, w => w
  | fuel + 1, pat, w =>
    match w with
    | [] => []
    | c :: rest =>
      if pat ≠ [] && pat.isPrefixOf w then removeSubFuel fuel pat (w.drop pat.length)
      else c :: removeSubFuel fuel pat rest

def pyRemove (w pat : List Char) : List Char :=
  removeSubFuel w.length pat w

/-- The suffix-rule cascade of singularize, applied after the "/s" and
"(s)" marker removal. -/
def singularizeSuffix (w3 : List Char) : List Char :=
  if endsWithSeq w3 ['i', 'e', 's'] then w3.take (w3.length - 3) ++ ['y']
  else if endsWithSeq w3 ['e', 's'] &&
      (endsWithSeq w3 ['s', 'e', 's'] || endsWithSeq w3 ['x', 'e', 's'] ||
       endsWithSeq w3 ['c', 'h', 'e', 's'] || endsWithSeq w3 ['s', 'h', 'e', 's']) then
    w3.take (w3.length - 2)
  else if endsWithSeq w3 ['s'] && !endsWithSeq w3 ['s', 's'] then w3.take (w3.length - 1)
  else w3

/-- singularize from src/db/series.py, on the character list of one word. -/
def singularize (w : List Char) : List Char :=
  if w = [] || w.length ≤ 3 then w
  else if w ∈ exceptionsWords then w
  else singularizeSuffix (pyRemove (pyRemove w ['/', 's']) ['(', 's', ')'])

/-- Step 5 of normalize_tag: replace every character outside a-z0-9 by a
space (the regex sub). -/
def cleanChar (c : Char) : Char :=
  if isLowAlnum c then c else ' '

/-- Python str.split() on the cleaned character list (only spaces remain). -/
def splitWordsAux : List Char → List Char → List (List Char)
  | [], acc => if acc = [] then [] else [acc.reverse]
  | c :: rest, acc =>
    if c = ' ' then
      if acc = [] then splitWordsAux rest []
      else acc.reverse :: splitWordsAux rest []
    else splitWordsAux rest (c :: acc)

def splitWords (cs : List Char) : List (List Char) :=
  splitWordsAux cs []

/-- Python " ".join on words. -/
def joinWords : List (List Char) → List Char
  | [] => []
  | [w] => w
  | w :: rest => w ++ ' ' :: joinWords rest

/-- Apply a function to the last word of a list. -/
def mapLast (f : List Char → List Char) : List (List Char) → List (List Char)
  | [] => []
  | [w] => [f w]
  | w :: rest => w :: mapLast f rest

/-- Step 6 of normalize_tag: drop a trailing lone "s" token when another
token precedes it. -/
def popPluralS (ws : List (List Char)) : List (List Char) :=
  if ws.getLast? = some ['s'] && decide (1 < ws.length) then ws.dropLast else ws

/-- Steps 4-7 of normalize_tag on a plain string (no JSON unwrapping). -/
def normTagBase (s : String) : String :=
  let cleaned := (normalize_text s).toList.map cleanChar
  let ws := splitWords cleaned
  if ws = [] then ""
  else String.mk (stripWsChars (joinWords (mapLast singularize (popPluralS ws))))

/-- normalize_tag from src/db/series.py as a fuel-indexed recursion: the
recursion unwraps JSON-array-looking strings and nested lists to their first
scalar, and every unwrapping step strictly shrinks the value, so the fuel
`pySize v` chosen by the wrapper below is adequate. -/
def normTagFuel : Nat → PyVal → String
  | 0, _ => ""
  | fuel + 1, v =>
    if pyTruthy v = false then ""
    else
      match v with
      | PyVal.plist l =>
        match l with
        | t0 :: _ => normTagFuel fuel t0
        | [] => ""
      | PyVal.pint _ => ""
      | PyVal.pnone => ""
      | PyVal.pstr s =>
        if s = "[]" || stripWs s = "" then ""
        else if startsWithChar s '[' && endsWithChar s ']' then
          match jsonLoads s with
          | some (PyVal.plist []) => ""
          | some (PyVal.plist (t0 :: _)) => normTagFuel fuel t0
          | _ => normTagBase s
        else normTagBase s

mutual

/-- Structural size of a Python value (strings weighted by length), the fuel
measure for the unwrapping recursions. -/
def pySize : PyVal → Nat
  | PyVal.pstr s => s.length + 1
  | PyVal.pint _ => 1
  | PyVal.pnone => 1
  | PyVal.plist l => 1 + pyListSize l

def pyListSize : List PyVal → Nat
  | [] => 0
  | v :: rest => pySize v + 1 + pyListSize rest

end

/-- normalize_tag from src/db/series.py lines 323-370. -/
def normalize_tag (v : PyVal) : String :=
  normTagFuel (pySize v) v

/-- normalize_tag applied to a plain string argument. -/
def normTagStr (s : String) : String :=
  normalize_tag (PyVal.pstr s)

/-- Integer to string exactly as Python str(). -/
def pyIntStr (n : Int) : String :=
  toString n

/-- extract_tags from src/db/series.py lines 372-392, fuel-indexed like
normalize_tag. -/
def extractTagsFuel : Nat → PyVal → List String
  | 0, _ => []
  | fuel + 1, v =>
    if pyTruthy v = false then []
    else
      match v with
      | PyVal.plist l => l.flatMap (extractTagsFuel fuel)
      | PyVal.pstr s =>
        if s = "[]" || stripWs s = "" then []
        else if startsWithChar s '[' && endsWithChar s ']' then
          match jsonLoads s with
          | some (PyVal.plist l) => extractTagsFuel fuel (PyVal.plist l)
          | _ => [s]
        else [s]
      | PyVal.pint n => [pyIntStr n]
      | PyVal.pnone => []

/-- extract_tags with adequate fuel. -/
def extract_tags (v : PyVal) : List String :=
  extractTagsFuel (pySize v + 1) v

/-! ### The tag cache build (_refresh_tag_cache, src/db/series.py 403-505)

Python dicts keyed by strings are embedded as association lists that keep
insertion order: setting an existing key updates it in place, a new key is
appended, exactly dict semantics for iteration and lookup. -/

def dictHas (d : List (String × String)) (k : String) : Bool :=
  (d.lookup k).isSome

def dictGet (d : List (String × String)) (k : String) : Option String :=
  d.lookup k

def dictSet (d : List (String × String)) (k v : String) : List (String × String) :=
  if (d.lookup k).isSome then d.map (fun p => if p.1 = k then (k, v) else p)
  else d ++ [(k, v)]

/-- Python truthiness of a nullable string column. -/
def optTruthy : Option String → Bool
  | some s => !s.isEmpty
  | none => false

/-- Python str.title(): uppercase every letter that follows a non-letter,
lowercase the rest. -/
def pyTitleAux : Bool → List Char → List Char
  | _, [] => []
  | prevAlpha, c :: rest =>
    if c.isAlpha then (if prevAlpha then c.toLower else c.toUpper) :: pyTitleAux true rest
    else c :: pyTitleAux false rest

def pyTitle (s : String) : String :=
  String.mk (pyTitleAux false s.toList)

/-- Python str.lower(), adequate for the ASCII norms and config entries it is
applied to. -/
def pyLower (s : String) : String :=
  String.mk (s.toList.map Char.toLower)

/-- One row of `SELECT genres, tags, demographics FROM series`. -/
structure SeriesTagRow where
  genres : Option String
  tags : Option String
  demographics : Option String

/-- One field of the shared try-block of _refresh_tag_cache:
`if row[k]: combined.extend(extract_tags(json.loads(row[k])))`.
A falsy column contributes nothing and the block continues (`some []`);
a json.loads failure raises out of the block (`none`). -/
def fieldTags (field : Option String) : Option (List String) :=
  match field with
  | none => some []
  | some s =>
    if s = "" then some []
    else
      match jsonLoads s with
      | none => none
      | some v => some (extract_tags v)

/-- The combined tag list of one row: the three extends run in sequence inside
one try whose `except: pass` keeps whatever was appended before a failure. -/
def rowCombined (r : SeriesTagRow) : List String :=
  match fieldTags r.genres with
  | none => []
  | some g =>
    match fieldTags r.tags with
    | none => g
    | some t =>
      match fieldTags r.demographics with
      | none => g ++ t
      | some d => g ++ t ++ d

/-- Step 1 of _refresh_tag_cache: whitelisted tags enter the vocabulary first
with their display names. -/
def addWhitelistTags (mods : List (String × TagMod)) : List (String × String) :=
  mods.foldl
    (fun d p =>
      if p.2.action = "whitelist" && optTruthy p.2.display_name then
        dictSet d p.1 (p.2.display_name.getD "")
      else d)
    []

/-- The display name a merge target receives in step 2 of _refresh_tag_cache:
the whitelisted display if the target has one, else its title-cased norm. -/
def mergeTargetDisplay (mods : List (String × TagMod)) (tNorm : String) : String :=
  match mods.lookup tNorm with
  | some tmod =>
    if tmod.action = "whitelist" && optTruthy tmod.display_name then
      tmod.display_name.getD ""
    else pyTitle tNorm
  | none => pyTitle tNorm

/-- Step 2 of _refresh_tag_cache: every merge target gets a display name. -/
def addMergeTargets (mods : List (String × TagMod)) (d0 : List (String × String)) :
    List (String × String) :=
  mods.foldl
    (fun d p =>
      if p.2.action = "merge" && optTruthy p.2.target_norm then
        if dictHas d (p.2.target_norm.getD "") then d
        else dictSet d (p.2.target_norm.getD "")
          (mergeTargetDisplay mods (p.2.target_norm.getD ""))
      else d)
    d0

/-- Python clean[0].isupper(); the source indexes [0], which cannot fail there
because a tag with a nonempty norm sanitises to a nonempty string. -/
def pyFirstUpper (s : String) : Bool :=
  match s.toList with
  | [] => false
  | c :: _ => c.isUpper

/-- Step 3 of _refresh_tag_cache for one tag whose modification is absent or
not blacklist/merge: insert the sanitised display, or prefer an uppercase
display over a lowercase one unless the norm is whitelisted. -/
def addSeriesTagPlain (mods : List (String × TagMod)) (d : List (String × String))
    (norm : String) (t : String) : List (String × String) :=
  if !dictHas d norm then dictSet d norm (sanitize_tag t)
  else
    let clean := sanitize_tag t
    let cur := (d.lookup norm).getD ""
    if pyFirstUpper clean && !pyFirstUpper cur then
      match mods.lookup norm with
      | some m2 => if m2.action = "whitelist" then d else dictSet d norm clean
      | none => dictSet d norm clean
    else d

/-- Step 3 of _refresh_tag_cache for one raw tag string of a series row. -/
def addSeriesTag (mods : List (String × TagMod)) (d : List (String × String))
    (t : String) : List (String × String) :=
  let rawNorm := normTagStr t
  if rawNorm = "" then d
  else
    match mods.lookup rawNorm with
    | some mod =>
      if mod.action = "blacklist" then d
      else if mod.action = "merge" && optTruthy mod.target_norm then
        let norm := mod.target_norm.getD ""
        if !dictHas d norm then dictSet d norm (sanitize_tag t) else d
      else addSeriesTagPlain mods d rawNorm t
    | none => addSeriesTagPlain mods d rawNorm t

/-- The system_tags dictionary built by _refresh_tag_cache (steps 1-3). -/
def buildSystemTags (mods : List (String × TagMod)) (rows : List SeriesTagRow) :
    List (String × String) :=
  rows.foldl (fun d r => (rowCombined r).foldl (addSeriesTag mods) d)
    (addMergeTargets mods (addWhitelistTags mods))

/-- Substring test, Python `needle in hay`. -/
def containsSub (needle : List Char) : List Char → Bool
  | [] => needle.isPrefixOf []
  | c :: rest => needle.isPrefixOf (c :: rest) || containsSub needle rest

/-- Characters of the regex word class backslash-w over the ASCII texts
involved. -/
def isWordChar (c : Char) : Bool :=
  c.isAlphanum || c = '_'

def optIsWord : Option Char → Bool
  | none => false
  | some c => isWordChar c

/-- A word boundary sits between two positions whose word-characterness
differs (the edge of the string counts as non-word). -/
def isBoundary (a b : Option Char) : Bool :=
  optIsWord a != optIsWord b

/-- Does the needle match at the head of hay with word boundaries on both
sides, given the character just before hay? -/
def matchHere (prev : Option Char) (needle hay : List Char) : Bool :=
  isBoundary prev needle.head? && needle.isPrefixOf hay &&
    isBoundary needle.getLast? ((hay.drop needle.length).head?)

def reSearchWordAux (needle : List Char) : Option Char → List Char → Bool
  | prev, [] => matchHere prev needle []
  | prev, c :: rest => matchHere prev needle (c :: rest) || reSearchWordAux needle (some c) rest

/-- The regex search re.search(r'\b' + re.escape(needle) + r'\b', hay) used
for containment and free-text tag matching. -/
def reSearchWord (needle hay : List Char) : Bool :=
  reSearchWordAux needle none hay

/-- First whitespace-separated word of a norm, Python norm.split()[0]
(the source would raise IndexError on an all-blank norm, which normalize_tag
never produces; modelled as ""). -/
def firstWord (norm : String) : String :=
  match splitWords norm.toList with
  | [] => ""
  | w :: _ => String.mk w

/-- containment_map.get(child, {}) as built by _refresh_tag_cache: parents are
recorded only for vocabulary norms of more than one word, and are the shorter
vocabulary norms occurring whole-word inside the child.  Iteration order of
the build only affects set insertion order, so the map is embedded as this
lookup function. -/
def containmentParents (sysTags : List (String × String)) (child : String) :
    List String :=
  if dictHas sysTags child && decide (1 < (splitWords child.toList).length) then
    (sysTags.map Prod.fst).filter
      (fun p => decide (p.length < child.length) && reSearchWord p.toList child.toList)
  else []

/-- tag_lookup[w] as built by _refresh_tag_cache: modification source norms
first, then vocabulary norms of length at least 3, grouped by first word,
without duplicates.  `w in tag_lookup` corresponds to this list being
nonempty. -/
def tagLookupFor (mods : List (String × TagMod)) (sysTags : List (String × String))
    (w : String) : List String :=
  (((mods.map Prod.fst) ++ (sysTags.map Prod.fst).filter (fun n => decide (3 ≤ n.length))).filter
    (fun n => firstWord n = w)).dedup

/-! ### get_series_by_tags (src/db/series.py 895-1001), matching core -/

/-- The columns of one series row that tag matching reads. -/
structure SeriesQueryRow where
  id : Int
  name : Option String
  title : Option String
  synopsis : Option String
  genres : Option String
  tags : Option String
  demographics : Option String

/-- `extract_tags(json.loads(f)) if f else []` (get_series_by_tags does not
guard the loads with a try; rows written by the scanner always parse, and a
row that would raise is modelled as contributing nothing). -/
def rowFieldTags (field : Option String) : List String :=
  match field with
  | none => []
  | some s =>
    if s = "" then []
    else
      match jsonLoads s with
      | some v => extract_tags v
      | none => []

/-- explicit_norms of one row: genres are sanitised for display first, then
all three sources are normalised and empty norms dropped (a Python set;
membership is what matters). -/
def explicitNorms (row : SeriesQueryRow) : List String :=
  (((rowFieldTags row.genres).map sanitize_tag ++ rowFieldTags row.tags ++
      rowFieldTags row.demographics).filterMap
    (fun t => if normTagStr t = "" then none else some (normTagStr t))).dedup

def orEmpty : Option String → String
  | some s => s
  | none => ""

/-- clean_metadata: normalize_text of "title name synopsis" with every
non-alphanumeric replaced by a space. -/
def seriesMetaChars (row : SeriesQueryRow) : List Char :=
  (normalize_text (orEmpty row.title ++ " " ++ orEmpty row.name ++ " " ++
    orEmpty row.synopsis)).toList.map cleanChar

/-- Free-text matches: for every metadata word that keys the first-word index,
every candidate tag found whole-word in the metadata contributes its resolved
norm and the resolved parents of that resolved norm. -/
def freeTextNorms (mods : List (String × TagMod)) (sysTags : List (String × String))
    (row : SeriesQueryRow) : List String :=
  let cm := seriesMetaChars row
  ((splitWords cm).map String.mk).dedup.flatMap
    (fun w =>
      (tagLookupFor mods sysTags w).flatMap
        (fun pt =>
          if containsSub pt.toList cm && reSearchWord pt.toList cm then
            let actual := resolve_norm pt mods
            actual :: (containmentParents sysTags actual).map (fun p => resolve_norm p mods)
          else []))

/-- series_all_norms: resolved explicit norms, resolved parents of the
explicit norms, and the free-text matches. -/
def seriesAllNorms (mods : List (String × TagMod)) (sysTags : List (String × String))
    (row : SeriesQueryRow) : List String :=
  (explicitNorms row).flatMap
      (fun n => resolve_norm n mods ::
        (containmentParents sysTags n).map (fun p => resolve_norm p mods)) ++
    freeTextNorms mods sysTags row

/-- selected_norms: each selected tag with a nonempty norm, resolved. -/
def selectedNorms (mods : List (String × TagMod)) (selected : List String) : List String :=
  selected.filterMap
    (fun t => if normTagStr t = "" then none else some (resolve_norm (normTagStr t) mods))

/-- The match condition of get_series_by_tags: every selected norm is in the
series' expanded norm set. -/
def seriesMatches (mods : List (String × TagMod)) (sysTags : List (String × String))
    (row : SeriesQueryRow) (selected : List String) : Bool :=
  (selectedNorms mods selected).all (fun sel => (seriesAllNorms mods sysTags row).contains sel)

/-- The matching series of get_series_by_tags, given the cache contents
(modifications and system_tags) it reads. -/
def get_series_by_tags (mods : List (String × TagMod)) (sysTags : List (String × String))
    (rows : List SeriesQueryRow) (selected : List String) : List SeriesQueryRow :=
  rows.filter (fun row => seriesMatches mods sysTags row selected)

/-- Project the tag columns of a series row, as the cache rebuild reads
them. -/
def toTagRow (r : SeriesQueryRow) : SeriesTagRow :=
  { genres := r.genres, tags := r.tags, demographics := r.demographics }

/-! ### NSFW classifier (src/db/nsfw.py) -/

/-- One row of the recompute SELECT over series. -/
structure NsfwRow where
  id : Int
  is_adult : Option Int
  category : Option String
  subcategory : Option String
  genres : Option String
  tags : Option String
  demographics : Option String
  nsfw_override : Option Int
  is_nsfw : Option Int

/-- The three configured NSFW rule lists, as parse_list returns them. -/
structure NsfwConfig where
  categories : List String
  subcategories : List String
  tag_patterns : List String

/-- Python truthiness of a nullable integer column. -/
def optIntTruthy : Option Int → Bool
  | none => false
  | some n => !(decide (n = 0))

/-- str(value).strip().lower() on a text column value. -/
def stripLower (s : String) : String :=
  pyLower (stripWs s)

/-- A character class [seq] of a glob pattern: members and ranges a-b,
with optional leading negation handled by the caller. -/
def inClass : List Char → Char → Bool
  | [], _ => false
  | a :: '-' :: b :: rest, c =>
    (decide (a ≤ c) && decide (c ≤ b)) || inClass rest c
  | a :: rest, c => decide (a = c) || inClass rest c

/-- Scan the members of a character class up to its closing bracket. -/
def splitClassAux : List Char → List Char → Option (List Char × List Char)
  | [], _ => none
  | ']' :: rest, acc => some (acc.reverse, rest)
  | c :: rest, acc => splitClassAux rest (c :: acc)

/-- Split a glob character class that starts just after its opening bracket:
returns (negated, members, rest).  A ']' in first member position is a
literal member, as in fnmatch.translate. -/
def splitClass (cs : List Char) : Option (Bool × List Char × List Char) :=
  match cs with
  | '!' :: ']' :: rest2 => (splitClassAux rest2 [']']).map (fun p => (true, p.1, p.2))
  | '!' :: rest => (splitClassAux rest []).map (fun p => (true, p.1, p.2))
  | ']' :: rest2 => (splitClassAux rest2 [']']).map (fun p => (false, p.1, p.2))
  | _ => (splitClassAux cs []).map (fun p => (false, p.1, p.2))

/-- Shell-style glob matching of fnmatch: * any sequence, ? any character,
[seq] a character class ([!seq] negated, unclosed bracket literal), anchored
at both ends.  The fuel (pattern length + text length) dominates the
recursion. -/
def globFuel : Nat → List Char → List Char → Bool
  | 0, _, _ => false
  | fuel + 1, pat, t =>
    match pat with
    | [] => t.isEmpty
    | '*' :: ps =>
      match t with
      | [] => globFuel fuel ps []
      | _ :: ts => globFuel fuel ps t || globFuel fuel ('*' :: ps) ts
    | '?' :: ps =>
      match t with
      | [] => false
      | _ :: ts => globFuel fuel ps ts
    | '[' :: ps =>
      match splitClass ps with
      | none =>
        match t with
        | [] => false
        | c :: ts => decide (c = '[') && globFuel fuel ps ts
      | some (neg, spec, rest) =>
        match t with
        | [] => false
        | c :: ts =>
          (if neg then !(inClass spec c) else inClass spec c) && globFuel fuel rest ts
    | p :: ps =>
      match t with
      | [] => false
      | c :: ts => decide (p = c) && globFuel fuel ps ts

/-- fnmatch.fnmatch(name, pattern) on POSIX (normcase is the identity
there). -/
def fnmatch (name pattern : String) : Bool :=
  globFuel (pattern.length + name.length + 1) pattern.toList name.toList

/-- matches_nsfw_tag_pattern from src/db/nsfw.py lines 43-55. -/
def matches_nsfw_tag_pattern (series_tags : List String) (patterns : List String) : Bool :=
  if series_tags.isEmpty || patterns.isEmpty then false
  else
    let normalized_tags := (series_tags.map normTagStr).filter (fun t => !t.isEmpty)
    if normalized_tags.isEmpty then false
    else
      let normalized_patterns :=
        (patterns.map stripLower).filter (fun p => !p.isEmpty)
      normalized_tags.any (fun tag => normalized_patterns.any (fun pat => fnmatch tag pat))

/-- tag_sources of a row: extract_tags applied to the raw nullable column
values (determine_series_nsfw runs extract_tags directly on the stored JSON
text). -/
def rowTagSources (row : NsfwRow) : List String :=
  extract_tags (match row.genres with | none => PyVal.pnone | some s => PyVal.pstr s) ++
  extract_tags (match row.tags with | none => PyVal.pnone | some s => PyVal.pstr s) ++
  extract_tags (match row.demographics with | none => PyVal.pnone | some s => PyVal.pstr s)

/-- determine_series_nsfw from src/db/nsfw.py lines 58-99.  The leading
`not series_row or id is None` guard cannot fire for rows of the recompute
SELECT, whose id is the primary key. -/
def determine_series_nsfw (row : NsfwRow) (cfg : NsfwConfig) : Bool :=
  if optIntTruthy row.is_adult then true
  else
    let category := stripLower (orEmpty row.category)
    if !category.isEmpty &&
        cfg.categories.any
          (fun e => !(stripLower e).isEmpty && containsSub (stripLower e).toList category.toList) then
      true
    else
      let subcategory := stripLower (orEmpty row.subcategory)
      if !subcategory.isEmpty &&
          cfg.subcategories.any
            (fun e => !(stripLower e).isEmpty && decide (stripLower e = subcategory)) then
        true
      else matches_nsfw_tag_pattern (rowTagSources row) cfg.tag_patterns

/-- Modelled from the spec sentence of the claim (the rule disjunction):
NSFW iff the adult flag is set, or the lowercased category contains a
configured entry as a substring, or the lowercased subcategory exactly equals
a configured entry, or any (nonempty) normalized genre/tag/demographic
glob-matches a configured pattern case-insensitively (both sides
lowercased). -/
def nsfwSpecRules (row : NsfwRow) (cfg : NsfwConfig) : Bool :=
  optIntTruthy row.is_adult ||
  cfg.categories.any
    (fun e => containsSub (stripLower e).toList (stripLower (orEmpty row.category)).toList) ||
  cfg.subcategories.any
    (fun e => decide (stripLower e = stripLower (orEmpty row.subcategory))) ||
  (rowTagSources row).any
    (fun t => !(normTagStr t).isEmpty &&
      cfg.tag_patterns.any (fun p => fnmatch (normTagStr t) (stripLower p)))

/-- recompute_nsfw_flags from src/db/nsfw.py lines 102-132: the loop computes
one (is_nsfw, id) pair per row — the manual override verbatim when non-null,
else the rule outcome — and a single executemany applies each computed flag to
its row (id is the primary key). -/
def recompute_nsfw_flags (cfg : NsfwConfig) (rows : List NsfwRow) : List NsfwRow :=
  rows.map
    (fun row =>
      { row with
        is_nsfw := some (match row.nsfw_override with
          | some o => o
          | none => if determine_series_nsfw row cfg then 1 else 0) })

/-! ### Phase-1 sync classification (sync_library_task, src/scanner/tasks.py 19-198)

The walk is embedded as the list of files it visits, each with its absolute
path, mtime and size.  Comic ids are a function of the path (md5 of its
utf-8 bytes in the source), passed in as a parameter `hash`.  The per-file
classification reads only the database snapshot, so the loop is embedded as
filters over the visited files. -/

structure FileInfo where
  path : String
  mtime : Int
  size : Int
deriving Repr, DecidableEq

/-- One row of the snapshot `SELECT id, path, mtime, size_bytes FROM comics`. -/
structure ComicRow where
  id : String
  path : String
  mtime : Int
  size : Int
deriving Repr, DecidableEq

def pyEndsWith (s suffix : String) : Bool :=
  endsWithSeq s.toList suffix.toList

/-- is_cbr_or_cbz from src/scanner/utils.py. -/
def is_cbr_or_cbz (filename : String) : Bool :=
  pyEndsWith (pyLower filename) ".cbz" || pyEndsWith (pyLower filename) ".cbr"

/-- The files the walk classifies: those whose name ends in .cbz/.cbr. -/
def walkArchives (files : List FileInfo) : List FileInfo :=
  files.filter (fun f => is_cbr_or_cbz f.path)

/-- db_meta lookup by comic id (ids are the primary key of comics). -/
def dbFind (db : List ComicRow) (cid : String) : Option ComicRow :=
  db.find? (fun r => r.id == cid)

/-- is_new: the id is not in the snapshot. -/
def isNewFile (hash : String → String) (db : List ComicRow) (f : FileInfo) : Bool :=
  (dbFind db (hash f.path)).isNone

/-- is_changed: the id is in the snapshot but mtime or size differs. -/
def isChangedFile (hash : String → String) (db : List ComicRow) (f : FileInfo) : Bool :=
  match dbFind db (hash f.path) with
  | none => false
  | some r => decide (r.mtime ≠ f.mtime) || decide (r.size ≠ f.size)

def newFiles (hash : String → String) (db : List ComicRow) (files : List FileInfo) :
    List FileInfo :=
  (walkArchives files).filter (isNewFile hash db)

def changedFiles (hash : String → String) (db : List ComicRow) (files : List FileInfo) :
    List FileInfo :=
  (walkArchives files).filter (isChangedFile hash db)

/-- on_disk_ids accumulated by the walk. -/
def onDiskIds (hash : String → String) (files : List FileInfo) : List String :=
  (walkArchives files).map (fun f => hash f.path)

/-- missing_ids = db_ids - on_disk_ids. -/
def missingIds (hash : String → String) (db : List ComicRow) (files : List FileInfo) :
    List String :=
  (db.map (fun r => r.id)).filter (fun i => !(onDiskIds hash files).contains i)

/-- delete_comics_by_ids from src/db/comics.py lines 5-17:
DELETE FROM comics WHERE id IN (..), a no-op on the empty list. -/
def delete_comics_by_ids (ids : List String) (db : List ComicRow) : List ComicRow :=
  if ids = [] then db
  else db.filter (fun r => !(ids.contains r.id))

/-! ### Series update paths (create_or_update_series, metadata_rescan_task)

The UPDATE of create_or_update_series (src/db/series.py 49-91) wraps every
field in COALESCE(incoming, current); the UPDATE of metadata_rescan_task
(src/scanner/tasks.py 459-478) binds the incoming values directly.  Both are
embedded as row transformers; the array-valued fields are carried as the
already-bound SQL parameters (to_json maps None to None and a list to its
JSON text, so nullness is preserved). -/

/-- The series columns that the two update statements touch. -/
structure SeriesRow where
  name : String
  title : Option String
  title_english : Option String
  title_japanese : Option String
  synonyms : Option String
  authors : Option String
  synopsis : Option String
  genres : Option String
  tags : Option String
  demographics : Option String
  status : Option String
  total_volumes : Option Int
  total_chapters : Option Int
  release_year : Option Int
  mal_id : Option Int
  anilist_id : Option Int
  cover_comic_id : Option String
  category : Option String
  subcategory : Option String
  alt_titles : Option String
  external_links : Option String
deriving Repr, DecidableEq

/-- The sidecar metadata fields read by create_or_update_series, as bound
after to_json. -/
structure Sidecar where
  title : Option String
  title_english : Option String
  title_japanese : Option String
  synonyms : Option String
  authors : Option String
  synopsis : Option String
  genres : Option String
  tags : Option String
  demographics : Option String
  status : Option String
  total_volumes : Option Int
  total_chapters : Option Int
  release_year : Option Int
  mal_id : Option Int
  anilist_id : Option Int
deriving Repr, DecidableEq

/-- SQL COALESCE(a, b). -/
def coalesce {α : Type} : Option α → Option α → Option α
  | some v, _ => some v
  | none, old => old

/-- The UPDATE branch of create_or_update_series applied to the existing
row. -/
def create_or_update_series_update (row : SeriesRow) (md : Sidecar)
    (category subcategory cover_comic_id : Option String) : SeriesRow :=
  { row with
    title := coalesce md.title row.title
    title_english := coalesce md.title_english row.title_english
    title_japanese := coalesce md.title_japanese row.title_japanese
    synonyms := coalesce md.synonyms row.synonyms
    authors := coalesce md.authors row.authors
    synopsis := coalesce md.synopsis row.synopsis
    genres := coalesce md.genres row.genres
    tags := coalesce md.tags row.tags
    demographics := coalesce md.demographics row.demographics
    status := coalesce md.status row.status
    total_volumes := coalesce md.total_volumes row.total_volumes
    total_chapters := coalesce md.total_chapters row.total_chapters
    release_year := coalesce md.release_year row.release_year
    mal_id := coalesce md.mal_id row.mal_id
    anilist_id := coalesce md.anilist_id row.anilist_id
    cover_comic_id := coalesce cover_comic_id row.cover_comic_id
    category := coalesce category row.category
    subcategory := coalesce subcategory row.subcategory }

/-- The sidecar fields read by the metadata-rescan UPDATE.  external_links is
json.dumps(metadata.get('external_links', {})), always a non-null string. -/
structure RescanMeta where
  synopsis : Option String
  authors : Option String
  genres : Option String
  tags : Option String
  status : Option String
  alt_titles : Option String
  external_links : String
deriving Repr, DecidableEq

/-- The UPDATE of metadata_rescan_task applied to the found series row: no
COALESCE, the incoming values are bound directly. -/
def metadata_rescan_update (row : SeriesRow) (md : RescanMeta) : SeriesRow :=
  { row with
    synopsis := md.synopsis
    authors := md.authors
    genres := md.genres
    tags := md.tags
    status := md.status
    alt_titles := md.alt_titles
    external_links := some md.external_links }

/-! ### Archive inspection (_process_single_comic, src/scanner/archives.py)

The filesystem is a function from paths to nodes; exceptions of the Python
archive and image libraries are Except errors; a caught exception is a
handled Except branch.  _process_single_comic returns in the Except monad so
that the theorem `= .ok r` expresses that no exception escapes its
boundary. -/

/-- The image bytes of one archive entry: either decodable (with the encoded
sizes the image would produce per format) or one PIL cannot open. -/
inductive ImgData where
  | decodable (webpSize jpgSize pngSize : Nat)
  | corruptImage (msg : String)
deriving Repr, DecidableEq

structure ArcEntry where
  name : String
  data : ImgData
deriving Repr, DecidableEq

/-- What a path denotes on disk. -/
inductive FileNode where
  | missing
  | zipArchive (entries : List ArcEntry)
  | rarArchive (entries : List ArcEntry)
  | unreadable (msg : String)
  | otherFile
deriving Repr, DecidableEq

/-- IMG_EXTENSIONS from src/config.py line 41. -/
def IMG_EXTENSIONS : List String :=
  [".jpg", ".jpeg", ".png", ".gif", ".bmp", ".webp", ".jxl"]

/-- n.lower().endswith(IMG_EXTENSIONS). -/
def hasImageExt (n : String) : Bool :=
  IMG_EXTENSIONS.any (fun e => pyEndsWith (pyLower n) e)

/-- os.path.splitext(path)[1].lower(): the suffix from the last dot of the
final component (a leading dot of the component is not an extension). -/
def pyExtLower (path : String) : String :=
  let rev := path.toList.reverse
  let tailPart := rev.takeWhile (fun c => !(c = '.' || c = '/' || c = '\\'))
  match rev.drop tailPart.length with
  | '.' :: rest2 =>
    match rest2 with
    | [] => ""
    | c :: _ => if c = '/' || c = '\\' then "" else pyLower (String.mk ('.' :: tailPart.reverse))
  | _ => ""

/-- os.path.basename. -/
def pyBasename (p : String) : String :=
  String.mk ((p.toList.reverse.takeWhile (fun c => !(c = '/' || c = '\\'))).reverse)

/-- zipfile.ZipFile(filepath): raises on anything that is not a zip. -/
def openZip : FileNode → Except String (List ArcEntry)
  | FileNode.zipArchive es => Except.ok es
  | FileNode.missing => Except.error "No such file or directory"
  | FileNode.rarArchive _ => Except.error "File is not a zip file"
  | FileNode.unreadable m => Except.error m
  | FileNode.otherFile => Except.error "File is not a zip file"

/-- rarfile.RarFile(filepath): raises on anything that is not a rar. -/
def openRar : FileNode → Except String (List ArcEntry)
  | FileNode.rarArchive es => Except.ok es
  | FileNode.missing => Except.error "No such file or directory"
  | FileNode.zipArchive _ => Except.error "Not a RAR file"
  | FileNode.unreadable m => Except.error m
  | FileNode.otherFile => Except.error "Not a RAR file"

/-- Admin thumbnail settings dictionary. -/
structure ThumbSettings where
  quality : Nat
  width : Nat
  format : String
deriving Repr, DecidableEq

/-- save_thumbnail result dictionary. -/
structure ThumbResult where
  success : Bool
  ext : Option String
  size : Nat
  saved : Int
  error : Option String
deriving Repr, DecidableEq

/-- The try-body of save_thumbnail (src/scanner/archives.py 11-78) up to the
point it raises: Image.open fails on a corrupt entry, and for a decodable one
the call `get_thumbnail_path(comic_id, ext="")` raises TypeError, because
config.get_thumbnail_path (src/config.py 43) accepts only comic_id.  The
format-selection code after that call is therefore unreachable at runtime and
is not embedded. -/
def saveThumbnailTry (img : ImgData) : Except String Unit :=
  match img with
  | ImgData.corruptImage m => Except.error ("cannot identify image file: " ++ m)
  | ImgData.decodable _ _ _ =>
    Except.error "get_thumbnail_path() got an unexpected keyword argument 'ext'"

/-- save_thumbnail from src/scanner/archives.py: its except-branch catches
everything the try-body raises and reports it in the result dictionary. -/
def save_thumbnail (img : ImgData) (itemName : String) : ThumbResult :=
  match saveThumbnailTry img with
  | Except.ok _ => { success := true, ext := none, size := 0, saved := 0, error := none }
  | Except.error e =>
    { success := false, ext := none, size := 0, saved := 0,
      error := some ("Thumbnail error: " ++ itemName ++ " - " ++ e) }

/-- _process_single_comic result dictionary. -/
structure ProcResult where
  comic_id : String
  filepath : String
  filename : String
  pages : Nat
  has_thumb : Bool
  thumbnail_ext : Option String
  thumb_size : Nat
  thumb_saved : Int
  errors : List String
  file_missing : Bool
deriving Repr, DecidableEq

/-- Ordering of archive entry names by natural sort key (Python list
comparison; cross-type comparison cannot occur between two keys, see the
alternation theorems). -/
def natKeyLe (a b : String) : Bool :=
  match pyListCompare (natural_sort_key a) (natural_sort_key b) with
  | some Ordering.gt => false
  | _ => true

def insertSorted (le : String → String → Bool) (x : String) : List String → List String
  | [] => [x]
  | y :: rest => if le x y then x :: y :: rest else y :: insertSorted le x rest

/-- A stable sort (insertion sort) by the given order, modelling
list.sort(key=natural_sort_key). -/
def sortByKey (le : String → String → Bool) (l : List String) : List String :=
  l.foldr (insertSorted le) []

/-- The body shared by the cbz and cbr branches: count image entries, sort
them naturally, try a thumbnail from the first. -/
def processEntries (entries : List ArcEntry) (base : ProcResult) : ProcResult :=
  let imgNames := (entries.map (fun e => e.name)).filter hasImageExt
  let r := { base with pages := imgNames.length }
  match sortByKey natKeyLe imgNames with
  | [] => r
  | first :: _ =>
    let data := match entries.find? (fun e => e.name == first) with
      | some e => e.data
      | none => ImgData.corruptImage "entry not found"
    let tr := save_thumbnail data first
    if tr.success then
      { r with has_thumb := true, thumbnail_ext := tr.ext, thumb_size := tr.size,
               thumb_saved := tr.saved }
    else { r with errors := r.errors ++ [tr.error.getD ""] }

/-- The try-block of _process_single_comic: extension dispatch, archive open
(which may raise), then the shared entry processing. -/
def processSingleTry (node : FileNode) (path : String) (base : ProcResult) :
    Except String ProcResult :=
  let ext := pyExtLower path
  if ext = ".cbz" then
    match openZip node with
    | Except.ok entries => Except.ok (processEntries entries base)
    | Except.error e => Except.error e
  else if ext = ".cbr" then
    match openRar node with
    | Except.ok entries => Except.ok (processEntries entries base)
    | Except.error e => Except.error e
  else Except.ok base

/-- The result dictionary _process_single_comic initialises before doing any
work. -/
def procBase (comicId path : String) : ProcResult :=
  { comic_id := comicId, filepath := path, filename := pyBasename path,
    pages := 0, has_thumb := false, thumbnail_ext := none, thumb_size := 0,
    thumb_saved := 0, errors := [], file_missing := false }

/-- _process_single_comic from src/scanner/archives.py 119-179: missing file
short-circuits with an error; everything else runs inside a try whose except
appends the error to the result, so the function always returns `.ok`. -/
def process_single_comic (fs : String → FileNode) (comicId path : String) :
    Except String ProcResult :=
  if fs path = FileNode.missing then
    Except.ok { procBase comicId path with
      errors := ["Comic file not found: " ++ path], file_missing := true }
  else
    match processSingleTry (fs path) path (procBase comicId path) with
    | Except.ok r => Except.ok r
    | Except.error e =>
      Except.ok { procBase comicId path with
        errors := ["Error processing " ++ path ++ ": " ++ e] }

/-! ### The process-wide tag cache and its write paths (src/db/series.py 616-696,
src/scanner/tasks.py 193-195)

_TAG_CACHE is a state record threaded through the operations; each database
write is parameterised by whether SQLite raised (dbOk), which the sources
catch with `except: return False`. -/

/-- The process-wide _TAG_CACHE. -/
structure TagCacheState where
  system_tags : Option (List (String × String))
  containment_map : Option (String → List String)
  tag_lookup : Option (String → List String)
  modifications : List (String × TagMod)

/-- The database contents the cache is rebuilt from. -/
structure TagDb where
  mods : List (String × TagMod)
  rows : List SeriesTagRow

/-- invalidate_tag_cache from src/db/series.py 690-696: system_tags,
containment_map and tag_lookup are set to None (modifications is kept). -/
def invalidate_tag_cache (st : TagCacheState) : TagCacheState :=
  { st with system_tags := none, containment_map := none, tag_lookup := none }

/-- _refresh_tag_cache as a state transition: a no-op while the cache is
filled, otherwise a full rebuild from the database. -/
def refresh_tag_cache (db : TagDb) (st : TagCacheState) : TagCacheState :=
  if st.system_tags.isSome then st
  else
    let sysTags := buildSystemTags db.mods db.rows
    { system_tags := some sysTags,
      containment_map := some (containmentParents sysTags),
      tag_lookup := some (tagLookupFor db.mods sysTags),
      modifications := db.mods }

/-- blacklist_tag from src/db/series.py 616-628. -/
def blacklist_tag (tag : String) (dbOk : Bool) (st : TagCacheState) :
    Bool × TagCacheState :=
  if normTagStr tag = "" then (false, st)
  else if dbOk then (true, invalidate_tag_cache st)
  else (false, st)

/-- The plain INSERT branch shared by whitelist_tag and the equal-norm branch
of merge_tags. -/
def whitelistInsert (dbOk : Bool) (st : TagCacheState) : Bool × TagCacheState :=
  if dbOk then (true, invalidate_tag_cache st) else (false, st)

/-- merge_tags from src/db/series.py 657-677.  When source and target
normalise identically it delegates to whitelist_tag, whose display then
normalises to the same norm, i.e. the plain insert branch. -/
def merge_tags (source_tag target_tag : String) (dbOk : Bool) (st : TagCacheState) :
    Bool × TagCacheState :=
  let sNorm := normTagStr source_tag
  let tNorm := normTagStr target_tag
  if sNorm = "" || tNorm = "" then (false, st)
  else if sNorm = tNorm then whitelistInsert dbOk st
  else if dbOk then (true, invalidate_tag_cache st)
  else (false, st)

/-- Python `if not display: display = tag` of whitelist_tag. -/
def whitelistDisplay (tag : String) (display : Option String) : String :=
  match display with
  | some d => if d = "" then tag else d
  | none => tag

def whitelist_tag (tag : String) (display : Option String) (dbOk : Bool) (db : TagDb)
    (st : TagCacheState) : Bool × TagCacheState :=
  if normTagStr tag = "" then (false, st)
  else if normTagStr (whitelistDisplay tag display) ≠ normTagStr tag then
    if dictHas ((refresh_tag_cache db st).system_tags.getD [])
        (normTagStr (whitelistDisplay tag display)) then
      merge_tags tag (normTagStr (whitelistDisplay tag display)) dbOk (refresh_tag_cache db st)
    else whitelistInsert dbOk (refresh_tag_cache db st)
  else whitelistInsert dbOk st

/-- remove_tag_modification from src/db/series.py 679-688. -/
def remove_tag_modification (dbOk : Bool) (st : TagCacheState) :
    Bool × TagCacheState :=
  if dbOk then (true, invalidate_tag_cache st) else (false, st)

/-- The tag-cache effect and return value of sync_library_task: the
cancellation path returns without invalidating (the job is marked failed);
the success path invalidates the cache just before returning its counts
(src/scanner/tasks.py 193-198). -/
def sync_library_task (hash : String → String) (db : List ComicRow)
    (files : List FileInfo) (cancelled : Bool) (st : TagCacheState) :
    Option (Nat × Nat) × TagCacheState :=
  if cancelled then (none, st)
  else
    (some ((newFiles hash db files).length + (changedFiles hash db files).length,
      (missingIds hash db files).length),
     invalidate_tag_cache st)

/-! ### Concrete sample inputs used by witnesses and counterexamples -/

/-- The two-element merge cycle a→b, b→a. -/
def cycleMods : List (String × TagMod) :=
  [("a", { action := "merge", target_norm := some "b", display_name := none }),
   ("b", { action := "merge", target_norm := some "a", display_name := none })]

/-- A populated series row. -/
def sampleSeriesRow : SeriesRow :=
  { name := "Sample", title := some "Sample Title", title_english := none,
    title_japanese := none, synonyms := none, authors := some "[\"A\"]",
    synopsis := some "Original synopsis", genres := some "[\"Action\"]",
    tags := some "[\"b\"]", demographics := none, status := some "ongoing",
    total_volumes := some 3, total_chapters := some 30, release_year := some 2020,
    mal_id := none, anilist_id := none, cover_comic_id := none,
    category := some "Manga", subcategory := none, alt_titles := none,
    external_links := none }

/-- A sidecar document with every key missing. -/
def emptySidecar : Sidecar :=
  { title := none, title_english := none, title_japanese := none, synonyms := none,
    authors := none, synopsis := none, genres := none, tags := none,
    demographics := none, status := none, total_volumes := none,
    total_chapters := none, release_year := none, mal_id := none, anilist_id := none }

/-- A rescan document whose keys are all missing (external_links defaults to
json.dumps({})). -/
def emptyRescanMeta : RescanMeta :=
  { synopsis := none, authors := none, genres := none, tags := none, status := none,
    alt_titles := none, external_links := "{}" }

/-- A filled cache state. -/
def sampleCache : TagCacheState :=
  { system_tags := some [("x", "X")], containment_map := some (fun _ => []),
    tag_lookup := some (fun _ => []), modifications := [] }

def sampleTagDb : TagDb :=
  { mods := [], rows := [] }

/-- The spec example config: category rule "hentai". -/
def cfgHentai : NsfwConfig :=
  { categories := ["hentai"], subcategories := [], tag_patterns := ["boob*"] }

/-- A series in category "Hentai/Doujinshi" without an override. -/
def rowHentai : NsfwRow :=
  { id := 1, is_adult := none, category := some "Hentai/Doujinshi",
    subcategory := none, genres := none, tags := none, demographics := none,
    nsfw_override := none, is_nsfw := none }

/-- The same series with a manual override of false. -/
def rowOverrideFalse : NsfwRow :=
  { rowHentai with id := 2, nsfw_override := some 0 }

/-- A word as normalize_tag emits them: nonempty, characters in a-z0-9. -/
def cleanWord (w : List Char) : Prop :=
  w ≠ [] ∧ ∀ c ∈ w, isLowAlnum c = true

/-- A nonempty list of clean words: the shape of every nonempty
normalize_tag output. -/
def goodWords (ws : List (List Char)) : Prop :=
  ws ≠ [] ∧ ∀ w ∈ ws, cleanWord w

/-- Does the final token of a normalized tag end with the letter s?  The
hypothesis of the amended idempotence claim. -/
def lastTokenEndsS (s : String) : Bool :=
  match (splitWords s.toList).getLast? with
  | none => false
  | some w => endsWithSeq w ['s']

/-- The three cache fields are None in a state: the postcondition of every
successful tag write. -/
def cacheCleared (st : TagCacheState) : Prop :=
  st.system_tags = none ∧ st.containment_map = none ∧ st.tag_lookup = none

/-- A single blacklist modification of the norm "b". -/
def cexBlacklistMod : TagMod :=
  { action := "blacklist", target_norm := none, display_name := none }

def cexBlacklistMods : List (String × TagMod) := [("b", cexBlacklistMod)]

/-- A series whose tags column holds exactly the blacklisted tag. -/
def cexBlacklistRow : SeriesQueryRow :=
  { id := 1, name := some "Example", title := none, synopsis := none,
    genres := none, tags := some "[\"b\"]", demographics := none }

end VibeCBR

namespace VibeCBR

/-! ## Theorems for the claims -/

theorem chain_pushChar (c : Char) (l : List (Bool × List Char))
    (h : List.Chain' (fun a b => a.1 ≠ b.1) l) :
    List.Chain' (fun a b => a.1 ≠ b.1) (pushChar c l) := by
  cases l with
  | nil => simp [pushChar]
  | cons hd tl =>
    obtain ⟨b, run⟩ := hd
    by_cases hc : c.isDigit = b
    · simp only [pushChar, if_pos hc]
      cases tl with
      | nil => simp
      | cons t2 tl2 =>
        rw [List.chain'_cons] at h ⊢
        exact h
    · simp only [pushChar, if_neg hc]
      exact List.Chain'.cons hc h

theorem chain_groupRuns (cs : List Char) :
    List.Chain' (fun a b => a.1 ≠ b.1) (groupRuns cs) := by
  induction cs with
  | nil => simp [groupRuns]
  | cons c cs ih => exact chain_pushChar c _ ih

theorem altKey_keyFromRuns (runs : List (Bool × List Char))
    (h : List.Chain' (fun a b => a.1 ≠ b.1) runs) :
    AltKey false (keyFromRuns runs) := by
  induction runs using keyFromRuns.induct with
  | case1 => exact AltKey.text _ _ (AltKey.nil _)
  | case2 r rest ih =>
    refine AltKey.text _ _ (AltKey.num _ _ ?_)
    exact ih (List.Chain'.tail h)
  | case3 r => exact AltKey.text _ _ (AltKey.nil _)
  | case4 r r2 rest2 ih =>
    refine AltKey.text _ _ (AltKey.num _ _ ?_)
    refine ih (List.Chain'.tail (List.Chain'.tail h))
  | case5 r r2 rest2 ih =>
    exfalso
    rcases h with _ | ⟨hne, _⟩
    exact hne rfl

theorem altKey_natural_sort_key (s : String) : AltKey false (natural_sort_key s) :=
  altKey_keyFromRuns _ (chain_groupRuns _)

theorem pyListCompare_total_of_alt :
    ∀ (b : Bool) (k1 k2 : List NatKeyElem), AltKey b k1 → AltKey b k2 →
      pyListCompare k1 k2 ≠ none := by
  intro b k1
  induction k1 generalizing b with
  | nil =>
    intro k2 _ _
    cases k2 <;> simp [pyListCompare]
  | cons a as ih =>
    intro k2 h1 h2
    cases k2 with
    | nil => cases a <;> simp [pyListCompare]
    | cons c cs =>
      cases h1 with
      | text s rest hr1 =>
        cases h2 with
        | text s2 rest2 hr2 =>
          simp only [pyListCompare, pyCompare]
          cases hcmp : strCmp s s2 with
          | eq => exact ih _ _ hr1 hr2
          | lt => simp
          | gt => simp
      | num n rest hr1 =>
        cases h2 with
        | num n2 rest2 hr2 =>
          simp only [pyListCompare, pyCompare]
          cases hcmp : compare n n2 with
          | eq => exact ih _ _ hr1 hr2
          | lt => simp
          | gt => simp

theorem charCompare_self (a : Char) : compare a a = Ordering.eq := by
  simp [compare, compareOfLessAndEq]

theorem lexCmp_self (l : List Char) : lexCmp l l = Ordering.eq := by
  induction l with
  | nil => rfl
  | cons a as ih => simp [lexCmp, charCompare_self, ih]

theorem pyCompare_self (e : NatKeyElem) : pyCompare e e = some Ordering.eq := by
  cases e with
  | text s => simp [pyCompare, strCmp, lexCmp_self]
  | num n => simp [pyCompare, Nat.compare_eq_eq]

theorem pyListCompare_append_num_lt (pre : List NatKeyElem) (m n : Nat)
    (ka kb : List NatKeyElem) (hmn : m < n) :
    pyListCompare (pre ++ NatKeyElem.num m :: ka) (pre ++ NatKeyElem.num n :: kb) =
      some Ordering.lt := by
  induction pre with
  | nil =>
    simp only [List.nil_append, pyListCompare, pyCompare]
    rw [Nat.compare_eq_lt.mpr hmn]
  | cons e pre ih =>
    simp only [List.cons_append, pyListCompare, pyCompare_self]
    exact ih

theorem length_filter_mono {α : Type} {p q : α → Bool}
    (hpq : ∀ x, q x = true → p x = true) (l : List α) :
    (l.filter q).length ≤ (l.filter p).length := by
  induction l with
  | nil => simp
  | cons a as ih =>
    rw [List.filter_cons, List.filter_cons]
    cases hq : q a with
    | true => simpa [hpq a hq] using ih
    | false =>
      cases hp : p a with
      | true => simpa using Nat.le_succ_of_le ih
      | false => simpa using ih

theorem filter_length_lt {l : List String} {p q : String → Bool}
    (hpq : ∀ x, q x = true → p x = true) (t : String) (ht : t ∈ l)
    (hp : p t = true) (hq : q t = false) :
    (l.filter q).length < (l.filter p).length := by
  induction l with
  | nil => cases ht
  | cons a as ih =>
    rcases List.mem_cons.mp ht with rfl | hmem
    · rw [List.filter_cons, List.filter_cons, hp, hq]
      simpa using Nat.lt_succ_of_le (length_filter_mono hpq as)
    · rw [List.filter_cons, List.filter_cons]
      cases hqa : q a with
      | true =>
        rw [hpq a hqa]
        simpa using ih hmem
      | false =>
        cases hpa : p a with
        | true => simpa using Nat.lt_succ_of_lt (ih hmem)
        | false => simpa using ih hmem

theorem unvisitedKeys_cons_lt (mods : List (String × TagMod)) (visited : List String)
    (t : String) (hkey : t ∈ mods.map Prod.fst) (hvis : ¬ t ∈ visited) :
    unvisitedKeys mods (t :: visited) < unvisitedKeys mods visited := by
  refine filter_length_lt ?_ t hkey ?_ ?_
  · intro x hx
    simp only [decide_eq_true_eq] at hx ⊢
    intro hmem
    exact hx (List.mem_cons_of_mem _ hmem)
  · simpa using hvis
  · simp

theorem unvisitedKeys_pos (mods : List (String × TagMod)) (visited : List String)
    (t : String) (hkey : t ∈ mods.map Prod.fst) (hvis : ¬ t ∈ visited) :
    1 ≤ unvisitedKeys mods visited := by
  have : t ∈ (mods.map Prod.fst).filter (fun k => decide (¬ k ∈ visited)) := by
    refine List.mem_filter.mpr ⟨hkey, by simpa using hvis⟩
  have hpos := List.length_pos.mpr (List.ne_nil_of_mem this)
  exact hpos

theorem resolveNormFuel_pos (fuel : Nat) (h : 0 < fuel) (norm : String)
    (visited : List String) (mods : List (String × TagMod)) :
    resolveNormFuel fuel norm visited mods =
      match resolveStep mods visited norm with
      | none => norm
      | some target => resolveNormFuel (fuel - 1) target (target :: visited) mods := by
  cases fuel with
  | zero => cases h
  | succ f => rfl

theorem lookup_mem_keys :
    ∀ {l : List (String × TagMod)} {k : String} {v : TagMod},
      l.lookup k = some v → k ∈ l.map Prod.fst := by
  intro l
  induction l with
  | nil => intro k v h; cases h
  | cons p rest ih =>
    intro k v h
    obtain ⟨pk, pv⟩ := p
    simp only [List.lookup] at h
    cases heq : (k == pk) with
    | true =>
      have : k = pk := eq_of_beq heq
      subst this
      exact List.mem_cons_self _ _
    | false =>
      rw [heq] at h
      exact List.mem_cons_of_mem _ (ih h)

theorem resolveStep_not_visited {mods : List (String × TagMod)} {visited : List String}
    {norm target : String} (h : resolveStep mods visited norm = some target) :
    ¬ target ∈ visited := by
  unfold resolveStep at h
  cases hlook : mods.lookup norm with
  | none => simp [hlook] at h
  | some mod =>
    simp only [hlook] at h
    by_cases hact : mod.action = "merge"
    · rw [if_pos hact] at h
      cases htgt : mod.target_norm with
      | none => simp [htgt] at h
      | some t =>
        simp only [htgt] at h
        by_cases hemp : t = ""
        · rw [if_pos hemp] at h; cases h
        · rw [if_neg hemp] at h
          by_cases hvis : t ∈ visited
          · rw [if_pos hvis] at h; cases h
          · rw [if_neg hvis] at h
            cases h
            exact hvis
    · rw [if_neg hact] at h; cases h

theorem resolveNormFuel_stable (mods : List (String × TagMod)) :
    ∀ (f g : Nat) (norm : String) (visited : List String),
      unvisitedKeys mods visited ≤ f → unvisitedKeys mods visited ≤ g →
      resolveNormFuel (f + 2) norm visited mods = resolveNormFuel (g + 2) norm visited mods := by
  intro f
  induction f with
  | zero =>
    intro g norm visited hf hg
    rw [resolveNormFuel_pos (0 + 2) (by omega), resolveNormFuel_pos (g + 2) (by omega)]
    cases hstep : resolveStep mods visited norm with
    | none => rfl
    | some target =>
      have hvis := resolveStep_not_visited hstep
      show resolveNormFuel 1 target (target :: visited) mods =
        resolveNormFuel (g + 1) target (target :: visited) mods
      -- continuing from here would need an unvisited key, but the measure is 0,
      -- so the next step must stop immediately on both sides
      cases hstep2 : resolveStep mods (target :: visited) target with
      | none =>
        rw [resolveNormFuel_pos 1 (by omega), resolveNormFuel_pos (g + 1) (by omega), hstep2]
      | some t2 =>
        exfalso
        have hkey : target ∈ mods.map Prod.fst := by
          unfold resolveStep at hstep2
          cases hlook2 : mods.lookup target with
          | none => simp [hlook2] at hstep2
          | some mod2 => exact lookup_mem_keys hlook2
        have := unvisitedKeys_pos mods visited target hkey hvis
        omega
  | succ f ih =>
    intro g norm visited hf hg
    rw [resolveNormFuel_pos (f + 1 + 2) (by omega), resolveNormFuel_pos (g + 2) (by omega)]
    cases hstep : resolveStep mods visited norm with
    | none => rfl
    | some target =>
      have hvis := resolveStep_not_visited hstep
      show resolveNormFuel (f + 2) target (target :: visited) mods =
        resolveNormFuel (g + 1) target (target :: visited) mods
      cases hstep2 : resolveStep mods (target :: visited) target with
      | none =>
        rw [resolveNormFuel_pos (f + 2) (by omega), resolveNormFuel_pos (g + 1) (by omega),
          hstep2]
      | some t2 =>
        have hkey : target ∈ mods.map Prod.fst := by
          unfold resolveStep at hstep2
          cases hlook2 : mods.lookup target with
          | none => simp [hlook2] at hstep2
          | some mod2 => exact lookup_mem_keys hlook2
        have hlt := unvisitedKeys_cons_lt mods visited target hkey hvis
        have hpos := unvisitedKeys_pos mods visited target hkey hvis
        cases g with
        | zero => omega
        | succ g1 =>
          have h1 : unvisitedKeys mods (target :: visited) ≤ f := by omega
          have h2 : unvisitedKeys mods (target :: visited) ≤ g1 := by omega
          show resolveNormFuel (f + 2) target (target :: visited) mods =
            resolveNormFuel (g1 + 2) target (target :: visited) mods
          exact ih g1 target (target :: visited) h1 h2

theorem unvisitedKeys_le_length (mods : List (String × TagMod)) (visited : List String) :
    unvisitedKeys mods visited ≤ mods.length := by
  calc ((mods.map Prod.fst).filter _).length
      ≤ (mods.map Prod.fst).length := List.length_filter_le _ _
    _ = mods.length := List.length_map _ _


/-- C5: resolve_norm terminates for every starting norm and every finite
tag-modifications map — any fuel of at least mods.length + 2 computes the
stable answer of the while loop — and on the two-element merge cycle where a
merges to b and b merges to a, resolve_norm "a" returns the stable value "b"
without looping. -/
theorem C5_resolve_norm_terminates (mods : List (String × TagMod)) (norm : String)
    (f : Nat) (hf : mods.length + 2 ≤ f) :
    resolveNormFuel f norm [norm] mods = resolve_norm norm mods ∧
    resolve_norm "a" cycleMods = "b" := by
  constructor
  · obtain ⟨k, rfl⟩ := Nat.exists_eq_add_of_le hf
    have h1 : unvisitedKeys mods [norm] ≤ mods.length + k :=
      le_trans (unvisitedKeys_le_length mods [norm]) (Nat.le_add_right _ _)
    have h2 : unvisitedKeys mods [norm] ≤ mods.length :=
      unvisitedKeys_le_length mods [norm]
    have hst := resolveNormFuel_stable mods (mods.length + k) mods.length norm [norm] h1 h2
    rw [show mods.length + 2 + k = (mods.length + k) + 2 from by omega]
    exact hst
  · decide

/-- Witness for C5: the cycle map with fuel 7. -/
theorem C5_witness :
    resolveNormFuel 7 "a" ["a"] cycleMods = resolve_norm "a" cycleMods ∧
    resolve_norm "a" cycleMods = "b" :=
  C5_resolve_norm_terminates cycleMods "a" 7 (by decide)

/-- C9: natural_sort_key orders names by comparing embedded maximal digit
runs numerically: whenever two keys agree on a common prefix and then hold
digit runs with m < n, the first name sorts strictly before the second; and
the induced comparison never raises (never hits an int-versus-str TypeError)
for any pair of strings. -/
theorem C9_natural_sort_key_numeric (s t : String) (pre ka kb : List NatKeyElem)
    (m n : Nat) (hs : natural_sort_key s = pre ++ NatKeyElem.num m :: ka)
    (ht : natural_sort_key t = pre ++ NatKeyElem.num n :: kb) (hmn : m < n) :
    pyListCompare (natural_sort_key s) (natural_sort_key t) = some Ordering.lt ∧
    ∀ u v : String, pyListCompare (natural_sort_key u) (natural_sort_key v) ≠ none := by
  constructor
  · rw [hs, ht]
    exact pyListCompare_append_num_lt pre m n ka kb hmn
  · intro u v
    exact pyListCompare_total_of_alt false _ _ (altKey_natural_sort_key u)
      (altKey_natural_sort_key v)

/-- Witness for C9: "page2.jpg" sorts before "page10.jpg". -/
theorem C9_witness :
    pyListCompare (natural_sort_key "page2.jpg") (natural_sort_key "page10.jpg") =
      some Ordering.lt ∧
    ∀ u v : String, pyListCompare (natural_sort_key u) (natural_sort_key v) ≠ none :=
  C9_natural_sort_key_numeric "page2.jpg" "page10.jpg" [NatKeyElem.text "page"]
    [NatKeyElem.text ".jpg"] [NatKeyElem.text ".jpg"] 2 10 (by decide) (by decide)
    (by decide)

/-- C8 counterexample: the metadata-rescan update path does not coalesce — a
sidecar document with no synopsis key nulls a stored synopsis instead of
leaving it unchanged, so the claim fails on that path. -/
theorem C8_counterexample :
    sampleSeriesRow.synopsis = some "Original synopsis" ∧
    emptyRescanMeta.synopsis = none ∧
    (metadata_rescan_update sampleSeriesRow emptyRescanMeta).synopsis ≠
      sampleSeriesRow.synopsis := by
  refine ⟨rfl, rfl, ?_⟩
  decide

/-- C8 (amended): create_or_update_series updates with coalesce semantics —
every null or missing incoming field leaves the stored field unchanged and a
non-null incoming value overwrites it — but the metadata-rescan update binds
its seven fields directly, overwriting them with the incoming values (nulling
fields whose keys are missing) while leaving its untouched columns
unchanged. -/
theorem C8_amended_update_semantics (row : SeriesRow) (md : Sidecar) (md2 : RescanMeta)
    (cat sub cov : Option String) :
    (md.synopsis = none →
      (create_or_update_series_update row md cat sub cov).synopsis = row.synopsis) ∧
    (∀ v, md.synopsis = some v →
      (create_or_update_series_update row md cat sub cov).synopsis = some v) ∧
    (metadata_rescan_update row md2).synopsis = md2.synopsis ∧
    (md.title = none →
      (create_or_update_series_update row md cat sub cov).title = row.title) ∧
    (md.title_english = none →
      (create_or_update_series_update row md cat sub cov).title_english = row.title_english) ∧
    (md.title_japanese = none →
      (create_or_update_series_update row md cat sub cov).title_japanese = row.title_japanese) ∧
    (md.synonyms = none →
      (create_or_update_series_update row md cat sub cov).synonyms = row.synonyms) ∧
    (md.authors = none →
      (create_or_update_series_update row md cat sub cov).authors = row.authors) ∧
    (md.genres = none →
      (create_or_update_series_update row md cat sub cov).genres = row.genres) ∧
    (md.tags = none →
      (create_or_update_series_update row md cat sub cov).tags = row.tags) ∧
    (md.demographics = none →
      (create_or_update_series_update row md cat sub cov).demographics = row.demographics) ∧
    (md.status = none →
      (create_or_update_series_update row md cat sub cov).status = row.status) ∧
    (md.total_volumes = none →
      (create_or_update_series_update row md cat sub cov).total_volumes = row.total_volumes) ∧
    (md.total_chapters = none →
      (create_or_update_series_update row md cat sub cov).total_chapters = row.total_chapters) ∧
    (md.release_year = none →
      (create_or_update_series_update row md cat sub cov).release_year = row.release_year) ∧
    (md.mal_id = none →
      (create_or_update_series_update row md cat sub cov).mal_id = row.mal_id) ∧
    (md.anilist_id = none →
      (create_or_update_series_update row md cat sub cov).anilist_id = row.anilist_id) ∧
    (∀ v, md.title = some v →
      (create_or_update_series_update row md cat sub cov).title = some v) ∧
    (∀ v, md.genres = some v →
      (create_or_update_series_update row md cat sub cov).genres = some v) ∧
    (∀ v, md.tags = some v →
      (create_or_update_series_update row md cat sub cov).tags = some v) ∧
    (metadata_rescan_update row md2).authors = md2.authors ∧
    (metadata_rescan_update row md2).genres = md2.genres ∧
    (metadata_rescan_update row md2).tags = md2.tags ∧
    (metadata_rescan_update row md2).status = md2.status ∧
    (metadata_rescan_update row md2).alt_titles = md2.alt_titles ∧
    (metadata_rescan_update row md2).external_links = some md2.external_links ∧
    (metadata_rescan_update row md2).name = row.name ∧
    (metadata_rescan_update row md2).title = row.title ∧
    (metadata_rescan_update row md2).title_english = row.title_english ∧
    (metadata_rescan_update row md2).title_japanese = row.title_japanese ∧
    (metadata_rescan_update row md2).synonyms = row.synonyms ∧
    (metadata_rescan_update row md2).demographics = row.demographics ∧
    (metadata_rescan_update row md2).total_volumes = row.total_volumes ∧
    (metadata_rescan_update row md2).total_chapters = row.total_chapters ∧
    (metadata_rescan_update row md2).release_year = row.release_year ∧
    (metadata_rescan_update row md2).mal_id = row.mal_id ∧
    (metadata_rescan_update row md2).anilist_id = row.anilist_id ∧
    (metadata_rescan_update row md2).cover_comic_id = row.cover_comic_id ∧
    (metadata_rescan_update row md2).category = row.category ∧
    (metadata_rescan_update row md2).subcategory = row.subcategory := by
  repeat' apply And.intro
  all_goals try rfl
  all_goals intros
  all_goals simp_all [create_or_update_series_update, coalesce]

/-- Witness for C8 (amended): a fully-missing sidecar leaves the synopsis
unchanged on the coalesce path, while the rescan path nulls it. -/
theorem C8_witness :
    (create_or_update_series_update sampleSeriesRow emptySidecar none none none).synopsis =
      sampleSeriesRow.synopsis ∧
    (metadata_rescan_update sampleSeriesRow emptyRescanMeta).synopsis = none := by
  have h := C8_amended_update_semantics sampleSeriesRow emptySidecar emptyRescanMeta
    none none none
  exact ⟨h.1 rfl, h.2.2.1⟩

theorem whitelistInsert_success (dbOk : Bool) (st : TagCacheState)
    (h : (whitelistInsert dbOk st).1 = true) : cacheCleared (whitelistInsert dbOk st).2 := by
  unfold cacheCleared
  unfold whitelistInsert at h ⊢
  split_ifs at h ⊢ <;> simp_all [invalidate_tag_cache]

theorem merge_tags_success (s t : String) (dbOk : Bool) (st : TagCacheState)
    (h : (merge_tags s t dbOk st).1 = true) : cacheCleared (merge_tags s t dbOk st).2 := by
  unfold cacheCleared
  simp only [merge_tags, whitelistInsert] at h ⊢
  by_cases h0 : (decide (normTagStr s = "") || decide (normTagStr t = "")) = true
  · rw [if_pos h0] at h
    cases h
  · rw [if_neg h0] at h ⊢
    by_cases h1 : normTagStr s = normTagStr t
    · rw [if_pos h1] at h ⊢
      split_ifs at h ⊢ <;> simp_all [invalidate_tag_cache]
    · rw [if_neg h1] at h ⊢
      split_ifs at h ⊢ <;> simp_all [invalidate_tag_cache]

theorem whitelist_tag_success (tag : String) (disp : Option String) (dbOk : Bool)
    (db : TagDb) (st : TagCacheState) (h : (whitelist_tag tag disp dbOk db st).1 = true) :
    cacheCleared (whitelist_tag tag disp dbOk db st).2 := by
  unfold whitelist_tag at h ⊢
  by_cases h0 : normTagStr tag = ""
  · rw [if_pos h0] at h
    cases h
  · rw [if_neg h0] at h ⊢
    by_cases h1 : normTagStr (whitelistDisplay tag disp) ≠ normTagStr tag
    · rw [if_pos h1] at h ⊢
      by_cases h2 : dictHas ((refresh_tag_cache db st).system_tags.getD [])
          (normTagStr (whitelistDisplay tag disp)) = true
      · rw [if_pos h2] at h ⊢
        exact merge_tags_success _ _ _ _ h
      · rw [if_neg h2] at h ⊢
        exact whitelistInsert_success _ _ h
    · rw [if_neg h1] at h ⊢
      exact whitelistInsert_success _ _ h

/-- C10: every write operation that can change tag data — blacklist_tag,
whitelist_tag, merge_tags, remove_tag_modification and the Phase-1 sync —
nulls system_tags, containment_map and tag_lookup before reporting success. -/
theorem C10_writes_invalidate_cache :
    (∀ tag dbOk st, (blacklist_tag tag dbOk st).1 = true →
      (blacklist_tag tag dbOk st).2.system_tags = none ∧
      (blacklist_tag tag dbOk st).2.containment_map = none ∧
      (blacklist_tag tag dbOk st).2.tag_lookup = none) ∧
    (∀ tag disp dbOk db st, (whitelist_tag tag disp dbOk db st).1 = true →
      (whitelist_tag tag disp dbOk db st).2.system_tags = none ∧
      (whitelist_tag tag disp dbOk db st).2.containment_map = none ∧
      (whitelist_tag tag disp dbOk db st).2.tag_lookup = none) ∧
    (∀ s t dbOk st, (merge_tags s t dbOk st).1 = true →
      (merge_tags s t dbOk st).2.system_tags = none ∧
      (merge_tags s t dbOk st).2.containment_map = none ∧
      (merge_tags s t dbOk st).2.tag_lookup = none) ∧
    (∀ dbOk st, (remove_tag_modification dbOk st).1 = true →
      (remove_tag_modification dbOk st).2.system_tags = none ∧
      (remove_tag_modification dbOk st).2.containment_map = none ∧
      (remove_tag_modification dbOk st).2.tag_lookup = none) ∧
    (∀ hash db files c st r, (sync_library_task hash db files c st).1 = some r →
      (sync_library_task hash db files c st).2.system_tags = none ∧
      (sync_library_task hash db files c st).2.containment_map = none ∧
      (sync_library_task hash db files c st).2.tag_lookup = none) := by
  refine ⟨?_, ?_, ?_, ?_, ?_⟩
  · intro tag dbOk st h
    unfold blacklist_tag at h ⊢
    split_ifs at h ⊢ <;> simp_all [invalidate_tag_cache]
  · intro tag disp dbOk db st h
    exact whitelist_tag_success tag disp dbOk db st h
  · intro s t dbOk st h
    exact merge_tags_success s t dbOk st h
  · intro dbOk st h
    unfold remove_tag_modification at h ⊢
    split_ifs at h ⊢ <;> simp_all [invalidate_tag_cache]
  · intro hash db files c st r h
    unfold sync_library_task at h ⊢
    split_ifs at h ⊢ <;> simp_all [invalidate_tag_cache]

/-- C6: _process_single_comic never lets an exception past its boundary —
for every filesystem and archive path it returns a result dictionary
(`Except.ok`) — and a missing file, or a corrupt archive behind a .cbz/.cbr
extension, yields pages = 0, has_thumb = false and at least one error
string. -/
theorem C6_process_single_comic_total (fs : String → FileNode) (comicId path : String) :
    ∃ r, process_single_comic fs comicId path = Except.ok r ∧
      (fs path = FileNode.missing → r.pages = 0 ∧ r.has_thumb = false ∧ r.errors ≠ []) ∧
      (∀ m, fs path = FileNode.unreadable m →
        (pyExtLower path = ".cbz" ∨ pyExtLower path = ".cbr") →
        r.pages = 0 ∧ r.has_thumb = false ∧ r.errors ≠ []) := by
  unfold process_single_comic
  by_cases hmiss : fs path = FileNode.missing
  · rw [if_pos hmiss]
    exact ⟨_, rfl, fun _ => ⟨rfl, rfl, by simp⟩,
      fun m hm _ => FileNode.noConfusion (hmiss.symm.trans hm)⟩
  · rw [if_neg hmiss]
    cases htry : processSingleTry (fs path) path (procBase comicId path) with
    | ok r =>
      refine ⟨r, rfl, fun hm => absurd hm hmiss, fun m hm hext => ?_⟩
      exfalso
      rw [hm] at htry
      rcases hext with hext | hext
      · simp [processSingleTry, hext, openZip] at htry
      · simp [processSingleTry, hext, openRar] at htry
    | error e =>
      exact ⟨_, rfl, fun hm => absurd hm hmiss, fun m hm hext => ⟨rfl, rfl, by simp⟩⟩

/-- Witness for C6: a filesystem on which every path is missing. -/
theorem C6_witness :
    ∃ r, process_single_comic (fun _ => FileNode.missing) "id1" "x.cbz" = Except.ok r ∧
      ((fun _ : String => FileNode.missing) "x.cbz" = FileNode.missing →
        r.pages = 0 ∧ r.has_thumb = false ∧ r.errors ≠ []) ∧
      (∀ m, (fun _ : String => FileNode.missing) "x.cbz" = FileNode.unreadable m →
        (pyExtLower "x.cbz" = ".cbz" ∨ pyExtLower "x.cbz" = ".cbr") →
        r.pages = 0 ∧ r.has_thumb = false ∧ r.errors ≠ []) :=
  C6_process_single_comic_total (fun _ => FileNode.missing) "id1" "x.cbz"

/-- The if-then-else chain of early returns, as a disjunction. -/
theorem iteOrBool (x y : Bool) : (if x then true else y) = (x || y) := by
  cases x <;> simp

theorem anyCongrMem {l : List String} {p q : String → Bool}
    (h : ∀ x ∈ l, p x = q x) : l.any p = l.any q := by
  induction l with
  | nil => rfl
  | cons a as ih =>
    simp only [List.any_cons]
    rw [h a (List.mem_cons_self a as), ih (fun x hx => h x (List.mem_cons_of_mem a hx))]

theorem anyFilter {l : List String} (p q : String → Bool) :
    (l.filter q).any p = l.any (fun a => q a && p a) := by
  induction l with
  | nil => rfl
  | cons a as ih =>
    rw [List.filter_cons]
    cases hq : q a with
    | true => simp [List.any_cons, hq, ih]
    | false => simp [List.any_cons, hq, ih]

theorem strNeToListNe {s : String} (h : s ≠ "") : s.toList ≠ [] := by
  intro hc
  apply h
  apply String.ext
  simpa [String.toList] using hc

theorem strIsEmptyFalse {s : String} (h : s ≠ "") : s.isEmpty = false := by
  rw [Bool.eq_false_iff]
  intro hT
  exact h ((String.isEmpty_iff s).mp hT)

theorem containsSub_nil (c : Char) (cs : List Char) :
    containsSub (c :: cs) [] = false := by
  simp [containsSub, List.isPrefixOf]

/-- The category rule of the code (nonempty category, nonempty entries)
equals the claim's plain substring disjunction when every configured entry is
nonempty. -/
theorem catCond_eq (cat : String) (entries : List String)
    (h : ∀ e ∈ entries, stripLower e ≠ "") :
    (!cat.isEmpty && entries.any
      (fun e => !(stripLower e).isEmpty && containsSub (stripLower e).toList cat.toList)) =
    entries.any (fun e => containsSub (stripLower e).toList cat.toList) := by
  by_cases hc : cat = ""
  · subst hc
    rw [show ("" : String).isEmpty = true from rfl]
    simp only [Bool.not_true, Bool.false_and]
    symm
    rw [List.any_eq_false]
    intro e he
    have hne := strNeToListNe (h e he)
    cases hsl : (stripLower e).toList with
    | nil => exact absurd hsl hne
    | cons c cs =>
      intro hcon
      rw [show ("" : String).toList = [] from rfl, containsSub_nil] at hcon
      cases hcon
  · rw [strIsEmptyFalse hc]
    simp only [Bool.not_false, Bool.true_and]
    apply anyCongrMem
    intro e he
    rw [strIsEmptyFalse (h e he)]
    simp only [Bool.not_false, Bool.true_and]

/-- The subcategory rule of the code equals the claim's plain equality
disjunction when every configured entry is nonempty. -/
theorem subCond_eq (sub : String) (entries : List String)
    (h : ∀ e ∈ entries, stripLower e ≠ "") :
    (!sub.isEmpty && entries.any
      (fun e => !(stripLower e).isEmpty && decide (stripLower e = sub))) =
    entries.any (fun e => decide (stripLower e = sub)) := by
  by_cases hc : sub = ""
  · subst hc
    rw [show ("" : String).isEmpty = true from rfl]
    simp only [Bool.not_true, Bool.false_and]
    symm
    rw [List.any_eq_false]
    intro e he
    simp [h e he]
  · rw [strIsEmptyFalse hc]
    simp only [Bool.not_false, Bool.true_and]
    apply anyCongrMem
    intro e he
    rw [strIsEmptyFalse (h e he)]
    simp only [Bool.not_false, Bool.true_and]

/-- matches_nsfw_tag_pattern equals the claim's any-tag-matches-any-pattern
disjunction when every configured pattern is nonempty after normalising. -/
theorem matches_eq_spec (sources : List String) (pats : List String)
    (h : ∀ p ∈ pats, stripLower p ≠ "") :
    matches_nsfw_tag_pattern sources pats =
      sources.any (fun t => !(normTagStr t).isEmpty &&
        pats.any (fun p => fnmatch (normTagStr t) (stripLower p))) := by
  unfold matches_nsfw_tag_pattern
  by_cases hs : sources.isEmpty = true
  · rw [List.isEmpty_iff] at hs
    subst hs
    simp
  · by_cases hp : pats.isEmpty = true
    · rw [List.isEmpty_iff] at hp
      subst hp
      simp
    · rw [Bool.eq_false_iff.mpr hs, Bool.eq_false_iff.mpr hp]
      simp only [Bool.or_false, Bool.false_eq_true, if_false]
      by_cases hnt : ((sources.map normTagStr).filter (fun t => !t.isEmpty)).isEmpty = true
      · rw [if_pos hnt]
        rw [List.isEmpty_iff] at hnt
        symm
        rw [List.any_eq_false]
        intro t ht
        rw [List.filter_eq_nil_iff] at hnt
        have hemp := hnt (normTagStr t) (List.mem_map_of_mem normTagStr ht)
        simp only [Bool.not_not] at hemp
        simp [hemp]
      · rw [if_neg hnt]
        have hnp : ((pats.map stripLower).filter (fun p => !p.isEmpty)) = pats.map stripLower := by
          apply List.filter_eq_self.mpr
          intro a ha
          obtain ⟨p, hp2, rfl⟩ := List.mem_map.mp ha
          rw [strIsEmptyFalse (h p hp2)]
          rfl
        rw [hnp, anyFilter, List.any_map]
        apply anyCongrMem
        intro t ht
        simp only [Function.comp]
        rw [List.any_map]
        rfl

/-- determine_series_nsfw computes exactly the claim's rule disjunction, for
configurations whose entries are nonempty after normalisation (as produced by
parse_list, which drops empty items). -/
theorem determine_eq_spec (row : NsfwRow) (cfg : NsfwConfig)
    (hcat : ∀ e ∈ cfg.categories, stripLower e ≠ "")
    (hsub : ∀ e ∈ cfg.subcategories, stripLower e ≠ "")
    (hpat : ∀ p ∈ cfg.tag_patterns, stripLower p ≠ "") :
    determine_series_nsfw row cfg = nsfwSpecRules row cfg := by
  simp only [determine_series_nsfw, nsfwSpecRules]
  rw [iteOrBool, iteOrBool, iteOrBool]
  rw [catCond_eq _ _ hcat, subCond_eq _ _ hsub, matches_eq_spec _ _ hpat]
  simp [Bool.or_assoc]

/-- C4: after recompute_nsfw_flags, every series row's is_nsfw equals the
manual override when non-null (absolute precedence in either direction, so an
override of false gives 0 regardless of the rules), and otherwise 1 iff the
claim's rule disjunction holds: adult flag, category substring, subcategory
equality, or a case-insensitive glob match on a normalized
genre/tag/demographic. -/
theorem C4_recompute_nsfw_flags (cfg : NsfwConfig) (rows : List NsfwRow)
    (hcat : ∀ e ∈ cfg.categories, stripLower e ≠ "")
    (hsub : ∀ e ∈ cfg.subcategories, stripLower e ≠ "")
    (hpat : ∀ p ∈ cfg.tag_patterns, stripLower p ≠ "") :
    (recompute_nsfw_flags cfg rows).map (fun r => r.is_nsfw) =
      rows.map (fun row => some (match row.nsfw_override with
        | some o => o
        | none => if nsfwSpecRules row cfg then 1 else 0)) := by
  unfold recompute_nsfw_flags
  rw [List.map_map]
  apply List.map_congr_left
  intro row _
  simp only [Function.comp]
  rw [determine_eq_spec row cfg hcat hsub hpat]

/-- Witness for C4: category "Hentai/Doujinshi" with rule "hentai" is flagged
NSFW, and a manual override of false forces 0 regardless. -/
theorem C4_witness :
    (recompute_nsfw_flags cfgHentai [rowHentai, rowOverrideFalse]).map (fun r => r.is_nsfw) =
      [some 1, some 0] := by
  have h := C4_recompute_nsfw_flags cfgHentai [rowHentai, rowOverrideFalse]
    (by decide) (by decide) (by decide)
  rw [h]
  decide

theorem dbFind_eq_of_mem {db : List ComicRow} (hnodup : (db.map (fun r => r.id)).Nodup)
    {r : ComicRow} (hr : r ∈ db) : dbFind db r.id = some r := by
  induction db with
  | nil => cases hr
  | cons a as ih =>
    rw [List.map_cons, List.nodup_cons] at hnodup
    rcases List.mem_cons.mp hr with rfl | hmem
    · exact List.find?_cons_of_pos _ (by simp)
    · have hneq : ¬ (a.id == r.id) = true := by
        simp only [beq_iff_eq]
        intro he
        exact hnodup.1 (he ▸ List.mem_map_of_mem (fun r => r.id) hmem)
      unfold dbFind
      have hneq2 : ¬ ((fun x : ComicRow => x.id == r.id) a) = true := hneq
      have hstep := @List.find?_cons_of_neg ComicRow (fun x => x.id == r.id) a as hneq2
      rw [hstep]
      exact ih hnodup.2 hmem

/-- C1: when the database snapshot exactly reflects the filesystem — every
archive file's id is present with matching mtime and size, and every snapshot
id has a file on disk — the Phase-1 sync classifies zero files as new, zero
as changed, computes no missing ids, and the deletion step deletes nothing. -/
theorem C1_sync_idempotent (hash : String → String) (db : List ComicRow)
    (files : List FileInfo)
    (hnodup : (db.map (fun r => r.id)).Nodup)
    (hfile : ∀ f ∈ walkArchives files, ∃ r ∈ db,
      r.id = hash f.path ∧ r.mtime = f.mtime ∧ r.size = f.size)
    (hdb : ∀ r ∈ db, ∃ f ∈ walkArchives files, hash f.path = r.id) :
    newFiles hash db files = [] ∧ changedFiles hash db files = [] ∧
    missingIds hash db files = [] ∧
    delete_comics_by_ids (missingIds hash db files) db = db := by
  have hnew : newFiles hash db files = [] := by
    unfold newFiles
    rw [List.filter_eq_nil_iff]
    intro f hf
    obtain ⟨r, hrdb, hrid, _, _⟩ := hfile f hf
    have hfind : dbFind db (hash f.path) = some r := by
      rw [← hrid]
      exact dbFind_eq_of_mem hnodup hrdb
    simp [isNewFile, hfind]
  have hchanged : changedFiles hash db files = [] := by
    unfold changedFiles
    rw [List.filter_eq_nil_iff]
    intro f hf
    obtain ⟨r, hrdb, hrid, hmt, hsz⟩ := hfile f hf
    have hfind : dbFind db (hash f.path) = some r := by
      rw [← hrid]
      exact dbFind_eq_of_mem hnodup hrdb
    simp [isChangedFile, hfind, hmt, hsz]
  have hmiss : missingIds hash db files = [] := by
    unfold missingIds
    rw [List.filter_eq_nil_iff]
    intro i hi
    obtain ⟨r, hrdb, rfl⟩ := List.mem_map.mp hi
    obtain ⟨f, hf, hfid⟩ := hdb r hrdb
    have hmemod : r.id ∈ onDiskIds hash files := by
      unfold onDiskIds
      exact hfid ▸ List.mem_map_of_mem _ hf
    simp [hmemod]
  refine ⟨hnew, hchanged, hmiss, ?_⟩
  rw [hmiss]
  rfl

/-- Witness for C1: one archive file, one matching snapshot row. -/
theorem C1_witness :
    newFiles (fun s => s) [⟨"a.cbz", "a.cbz", 1, 2⟩] [⟨"a.cbz", 1, 2⟩] = [] ∧
    changedFiles (fun s => s) [⟨"a.cbz", "a.cbz", 1, 2⟩] [⟨"a.cbz", 1, 2⟩] = [] ∧
    missingIds (fun s => s) [⟨"a.cbz", "a.cbz", 1, 2⟩] [⟨"a.cbz", 1, 2⟩] = [] ∧
    delete_comics_by_ids
      (missingIds (fun s => s) [⟨"a.cbz", "a.cbz", 1, 2⟩] [⟨"a.cbz", 1, 2⟩])
      [⟨"a.cbz", "a.cbz", 1, 2⟩] = [⟨"a.cbz", "a.cbz", 1, 2⟩] :=
  C1_sync_idempotent (fun s => s) [⟨"a.cbz", "a.cbz", 1, 2⟩] [⟨"a.cbz", 1, 2⟩]
    (by decide) (by decide) (by decide)

theorem filter_singleton_of_nodup (a : String) (p : String → Bool) :
    ∀ (l : List String), l.Nodup → a ∈ l → (∀ x ∈ l, (p x = true ↔ x = a)) →
      l.filter p = [a] := by
  intro l
  induction l with
  | nil =>
    intro _ ha _
    cases ha
  | cons b bs ih =>
    intro hnodup ha hp
    rw [List.nodup_cons] at hnodup
    rcases List.mem_cons.mp ha with rfl | hmem
    · rw [List.filter_cons, (hp _ (List.mem_cons_self _ _)).mpr rfl]
      have hrest : bs.filter p = [] := by
        rw [List.filter_eq_nil_iff]
        intro x hx hpx
        have := (hp x (List.mem_cons_of_mem _ hx)).mp hpx
        subst this
        exact hnodup.1 hx
      simp [hrest]
    · have hb : p b = false := by
        rw [Bool.eq_false_iff]
        intro hpb
        have := (hp b (List.mem_cons_self b bs)).mp hpb
        subst this
        exact hnodup.1 hmem
      rw [List.filter_cons, hb]
      simpa using ih hnodup.2 hmem (fun x hx => hp x (List.mem_cons_of_mem _ hx))

theorem walkArchives_append (files1 files2 : List FileInfo) :
    walkArchives (files1 ++ files2) = walkArchives files1 ++ walkArchives files2 :=
  List.filter_append _ _

theorem mem_onDiskIds {hash : String → String} {files : List FileInfo} {x : String} :
    x ∈ onDiskIds hash files ↔ ∃ g ∈ walkArchives files, hash g.path = x := by
  unfold onDiskIds
  rw [List.mem_map]

/-- C7, frame part: the Phase-1 deletion step removes exactly the snapshot
rows whose id is not on disk, leaving every other row untouched. -/
theorem delete_missing_frame (hash : String → String) (db : List ComicRow)
    (files : List FileInfo) :
    delete_comics_by_ids (missingIds hash db files) db =
      db.filter (fun r => (onDiskIds hash files).contains r.id) := by
  unfold delete_comics_by_ids
  by_cases hm : missingIds hash db files = []
  · rw [if_pos hm]
    symm
    rw [List.filter_eq_self]
    intro r hr
    have hid : r.id ∈ db.map (fun r => r.id) := List.mem_map_of_mem _ hr
    unfold missingIds at hm
    rw [List.filter_eq_nil_iff] at hm
    have h2 := hm r.id hid
    simpa using h2
  · rw [if_neg hm]
    apply List.filter_congr
    intro r hr
    by_cases hc : (onDiskIds hash files).contains r.id = true
    · have hmiss : (missingIds hash db files).contains r.id = false := by
        rw [Bool.eq_false_iff]
        intro hmem
        have hsp := List.mem_filter.mp (List.elem_iff.mp hmem)
        simp only [Bool.not_eq_true'] at hsp
        rw [hsp.2] at hc
        exact Bool.noConfusion hc
      show (!(missingIds hash db files).contains r.id) =
        (onDiskIds hash files).contains r.id
      rw [hmiss, hc]
      rfl
    · have hc2 := Bool.eq_false_iff.mpr hc
      have hid : r.id ∈ db.map (fun r => r.id) := List.mem_map_of_mem _ hr
      have hmem : (missingIds hash db files).contains r.id = true := by
        apply List.elem_iff.mpr
        unfold missingIds
        refine List.mem_filter.mpr ⟨hid, ?_⟩
        show (!(onDiskIds hash files).contains r.id) = true
        rw [hc2]
        rfl
      show (!(missingIds hash db files).contains r.id) =
        (onDiskIds hash files).contains r.id
      rw [hmem, hc2]
      rfl

/-- C7: when the snapshot exactly reflects the walked files, exactly the
snapshot ids not re-encountered on disk are deleted and the deletion step
removes or modifies no other comic row; removing the single file f0 and
re-syncing computes exactly [hash f0.path] as the missing ids. -/
theorem C7_deletion_exact (hash : String → String) (db : List ComicRow)
    (l1 l2 : List FileInfo) (f0 : FileInfo)
    (hnodup : (db.map (fun r => r.id)).Nodup)
    (hfile : ∀ f ∈ walkArchives (l1 ++ f0 :: l2), ∃ r ∈ db,
      r.id = hash f.path ∧ r.mtime = f.mtime ∧ r.size = f.size)
    (hdb : ∀ r ∈ db, ∃ f ∈ walkArchives (l1 ++ f0 :: l2), hash f.path = r.id)
    (harch : is_cbr_or_cbz f0.path = true)
    (hinj : ∀ g ∈ walkArchives (l1 ++ l2), hash g.path ≠ hash f0.path) :
    delete_comics_by_ids (missingIds hash db (l1 ++ l2)) db =
      db.filter (fun r => (onDiskIds hash (l1 ++ l2)).contains r.id) ∧
    missingIds hash db (l1 ++ l2) = [hash f0.path] := by
  have hsplit : walkArchives (l1 ++ f0 :: l2) =
      walkArchives l1 ++ f0 :: walkArchives l2 := by
    rw [walkArchives_append]
    unfold walkArchives
    rw [List.filter_cons, harch]
    rfl
  refine ⟨delete_missing_frame hash db (l1 ++ l2), ?_⟩
  unfold missingIds
  apply filter_singleton_of_nodup (hash f0.path) _ _ hnodup
  · -- hash f0.path is a snapshot id
    have hf0 : f0 ∈ walkArchives (l1 ++ f0 :: l2) := by
      rw [hsplit]
      exact List.mem_append_right _ (List.mem_cons_self _ _)
    obtain ⟨r, hrdb, hrid, _, _⟩ := hfile f0 hf0
    exact hrid ▸ List.mem_map_of_mem (fun r => r.id) hrdb
  · intro x hx
    constructor
    · intro hpx
      simp only [Bool.not_eq_true'] at hpx
      obtain ⟨r, hrdb, rfl⟩ := List.mem_map.mp hx
      obtain ⟨f, hf, hfid⟩ := hdb r hrdb
      rw [hsplit] at hf
      rcases List.mem_append.mp hf with hf1 | hf2
      · exfalso
        have : r.id ∈ onDiskIds hash (l1 ++ l2) := by
          apply mem_onDiskIds.mpr
          refine ⟨f, ?_, hfid⟩
          rw [walkArchives_append]
          exact List.mem_append_left _ hf1
        have hcontra : (onDiskIds hash (l1 ++ l2)).contains r.id = true :=
          List.elem_iff.mpr this
        rw [hpx] at hcontra
        exact Bool.noConfusion hcontra
      · rcases List.mem_cons.mp hf2 with rfl | hf3
        · exact hfid.symm
        · exfalso
          have : r.id ∈ onDiskIds hash (l1 ++ l2) := by
            apply mem_onDiskIds.mpr
            refine ⟨f, ?_, hfid⟩
            rw [walkArchives_append]
            exact List.mem_append_right _ hf3
          have hcontra : (onDiskIds hash (l1 ++ l2)).contains r.id = true :=
            List.elem_iff.mpr this
          rw [hpx] at hcontra
          exact Bool.noConfusion hcontra
    · intro hxe
      subst hxe
      simp only [Bool.not_eq_true']
      rw [Bool.eq_false_iff]
      intro hcon
      obtain ⟨g, hg, hgid⟩ := mem_onDiskIds.mp (List.elem_iff.mp hcon)
      exact hinj g hg hgid

/-- Witness for C7: two files, remove "b.cbz", exactly its id is deleted. -/
theorem C7_witness :
    delete_comics_by_ids
      (missingIds (fun s => s) [⟨"a.cbz", "a.cbz", 1, 2⟩, ⟨"b.cbz", "b.cbz", 3, 4⟩]
        ([⟨"a.cbz", 1, 2⟩] ++ []))
      [⟨"a.cbz", "a.cbz", 1, 2⟩, ⟨"b.cbz", "b.cbz", 3, 4⟩] =
      ([⟨"a.cbz", "a.cbz", 1, 2⟩, ⟨"b.cbz", "b.cbz", 3, 4⟩] : List ComicRow).filter
        (fun r => (onDiskIds (fun s => s) ([⟨"a.cbz", 1, 2⟩] ++ [])).contains r.id) ∧
    missingIds (fun s => s) [⟨"a.cbz", "a.cbz", 1, 2⟩, ⟨"b.cbz", "b.cbz", 3, 4⟩]
      ([⟨"a.cbz", 1, 2⟩] ++ []) = ["b.cbz"] :=
  C7_deletion_exact (fun s => s)
    [⟨"a.cbz", "a.cbz", 1, 2⟩, ⟨"b.cbz", "b.cbz", 3, 4⟩]
    [⟨"a.cbz", 1, 2⟩] [] ⟨"b.cbz", 3, 4⟩
    (by decide) (by decide) (by decide) (by decide) (by decide)

/-- Witness for C10: a successful blacklist of "romance" and a successful
sync both null the three cache fields of a filled cache. -/
theorem C10_witness :
    ((blacklist_tag "romance" true sampleCache).2.system_tags = none ∧
     (blacklist_tag "romance" true sampleCache).2.containment_map = none ∧
     (blacklist_tag "romance" true sampleCache).2.tag_lookup = none) ∧
    ((sync_library_task (fun p => p) [] [] false sampleCache).2.system_tags = none ∧
     (sync_library_task (fun p => p) [] [] false sampleCache).2.containment_map = none ∧
     (sync_library_task (fun p => p) [] [] false sampleCache).2.tag_lookup = none) := by
  have h := C10_writes_invalidate_cache
  refine ⟨h.1 "romance" true sampleCache (by decide), ?_⟩
  exact h.2.2.2.2 (fun p => p) [] [] false sampleCache (0, 0) rfl

/-! ### Lemmas towards C3 (normalize_tag idempotence, amended) -/

theorem lowAlnumBounds (c : Char) (h : isLowAlnum c = true) :
    (97 ≤ c.toNat ∧ c.toNat ≤ 122) ∨ (48 ≤ c.toNat ∧ c.toNat ≤ 57) := by
  simp only [isLowAlnum, Char.isLower, Char.isDigit, Bool.or_eq_true, Bool.and_eq_true,
    decide_eq_true_eq] at h
  rcases h with ⟨h1, h2⟩ | ⟨h1, h2⟩
  · left
    constructor
    · have hle : (97 : UInt32).toNat ≤ c.val.toNat := h1
      simpa using hle
    · have hle : c.val.toNat ≤ (122 : UInt32).toNat := h2
      simpa using hle
  · right
    constructor
    · have hle : (48 : UInt32).toNat ≤ c.val.toNat := h1
      simpa using hle
    · have hle : c.val.toNat ≤ (57 : UInt32).toNat := h2
      simpa using hle

theorem toLower_id_of_lowAlnum (c : Char) (h : isLowAlnum c = true) : c.toLower = c := by
  have hb := lowAlnumBounds c h
  unfold Char.toLower
  rw [if_neg]
  omega

theorem asciiFold_id_of_lowAlnum (c : Char) (h : isLowAlnum c = true) : asciiFold c = [c] := by
  have hb := lowAlnumBounds c h
  unfold asciiFold
  rw [if_pos]
  omega

theorem spaceNotLowAlnum : isLowAlnum ' ' = false := by decide

theorem asciiFold_space : asciiFold ' ' = [' '] := by decide

theorem toLower_space : Char.toLower ' ' = ' ' := by decide

/-- The characters produced by cleanChar. -/
theorem cleanChar_image (c : Char) : isLowAlnum (cleanChar c) = true ∨ cleanChar c = ' ' := by
  unfold cleanChar
  by_cases h : isLowAlnum c = true
  · rw [if_pos h]
    exact Or.inl h
  · rw [if_neg h]
    exact Or.inr rfl

theorem cleanChar_id (c : Char) (h : isLowAlnum c = true ∨ c = ' ') : cleanChar c = c := by
  unfold cleanChar
  rcases h with h | rfl
  · rw [if_pos h]
  · rw [if_neg (by decide)]

theorem fold_lower_id (cs : List Char) (h : ∀ c ∈ cs, isLowAlnum c = true ∨ c = ' ') :
    (cs.flatMap asciiFold).map Char.toLower = cs := by
  induction cs with
  | nil => rfl
  | cons c rest ih =>
    have hc := h c (List.mem_cons_self _ _)
    have hfold : asciiFold c = [c] := by
      rcases hc with hc | rfl
      · exact asciiFold_id_of_lowAlnum c hc
      · exact asciiFold_space
    have hlow : Char.toLower c = c := by
      rcases hc with hc | rfl
      · exact toLower_id_of_lowAlnum c hc
      · exact toLower_space
    rw [List.flatMap_cons, hfold]
    simp only [List.singleton_append, List.map_cons, hlow]
    rw [ih (fun x hx => h x (List.mem_cons_of_mem _ hx))]

/-- normalize_text is the identity on strings of a-z0-9 and spaces. -/
theorem normalize_text_id (cs : List Char) (h : ∀ c ∈ cs, isLowAlnum c = true ∨ c = ' ') :
    normalize_text (String.mk cs) = String.mk cs := by
  unfold normalize_text
  by_cases hcs : String.mk cs = ""
  · rw [if_pos hcs, hcs]
  · rw [if_neg hcs]
    congr 1
    show ((String.mk cs).toList.flatMap asciiFold).map Char.toLower = cs
    show (cs.flatMap asciiFold).map Char.toLower = cs
    exact fold_lower_id cs h

/-- Splitting consumes a block of non-space characters into the
accumulator. -/
theorem splitWordsAux_nonspace (w : List Char) (hw : ∀ c ∈ w, ¬ c = ' ') :
    ∀ (cs acc : List Char), splitWordsAux (w ++ cs) acc = splitWordsAux cs (w.reverse ++ acc) := by
  induction w with
  | nil => intro cs acc; rfl
  | cons c rest ih =>
    intro cs acc
    have hc : ¬ c = ' ' := hw c (List.mem_cons_self _ _)
    show splitWordsAux (c :: (rest ++ cs)) acc = _
    rw [splitWordsAux, if_neg hc]
    rw [ih (fun x hx => hw x (List.mem_cons_of_mem _ hx)) cs (c :: acc)]
    simp

/-- Round trip: splitting a join of clean words gives back the words. -/
theorem splitWords_joinWords (ws : List (List Char)) (h : ∀ w ∈ ws, cleanWord w) :
    splitWords (joinWords ws) = ws := by
  induction ws with
  | nil => rfl
  | cons w rest ih =>
    obtain ⟨hne, hchars⟩ := h w (List.mem_cons_self _ _)
    have hnospace : ∀ c ∈ w, ¬ c = ' ' := by
      intro c hc hsp
      have := hchars c hc
      rw [hsp] at this
      rw [spaceNotLowAlnum] at this
      cases this
    cases rest with
    | nil =>
      show splitWords (joinWords [w]) = [w]
      unfold joinWords splitWords
      rw [show w = w ++ [] from by simp, splitWordsAux_nonspace w hnospace [] []]
      simp only [List.append_nil]
      rw [splitWordsAux, if_neg (by simp [List.reverse_eq_nil_iff, hne])]
      simp
    | cons w2 rest2 =>
      show splitWords (w ++ ' ' :: joinWords (w2 :: rest2)) = w :: w2 :: rest2
      unfold splitWords
      rw [splitWordsAux_nonspace w hnospace (' ' :: joinWords (w2 :: rest2)) []]
      rw [splitWordsAux, if_pos rfl, if_neg (by simp [List.reverse_eq_nil_iff, hne])]
      simp only [List.append_nil, List.reverse_reverse]
      rw [show splitWordsAux (joinWords (w2 :: rest2)) [] =
        splitWords (joinWords (w2 :: rest2)) from rfl]
      rw [ih (fun x hx => h x (List.mem_cons_of_mem _ hx))]

/-- str.replace(pat, "") is the identity when the pattern opens with a
character that cannot occur in the word. -/
theorem removeSubFuel_id (p : Char) (ps : List Char) (hp : isLowAlnum p = false) :
    ∀ (fuel : Nat) (w : List Char), (∀ c ∈ w, isLowAlnum c = true) →
      removeSubFuel fuel (p :: ps) w = w := by
  intro fuel
  induction fuel with
  | zero => intro w _; rfl
  | succ n ih =>
    intro w hw
    match w with
    | [] => rfl
    | c :: rest =>
      have hc : isLowAlnum c = true := hw c (List.mem_cons_self _ _)
      have hpre : (p :: ps).isPrefixOf (c :: rest) = false := by
        show (p == c && ps.isPrefixOf rest) = false
        have : (p == c) = false := by
          apply beq_eq_false_iff_ne.mpr
          intro hpc
          rw [hpc, hc] at hp
          cases hp
        rw [this, Bool.false_and]
      rw [removeSubFuel]
      rw [if_neg (by simp [hpre])]
      rw [ih rest (fun x hx => hw x (List.mem_cons_of_mem _ hx))]

theorem pyRemove_id (w : List Char) (p : Char) (ps : List Char)
    (hp : isLowAlnum p = false) (hw : ∀ c ∈ w, isLowAlnum c = true) :
    pyRemove w (p :: ps) = w :=
  removeSubFuel_id p ps hp w.length w hw

/-- A suffix test against a single character is a statement about the last
element. -/
theorem endsWithSeq_singleton (c : Char) :
    ∀ (w : List Char), endsWithSeq w [c] = true ↔ w.getLast? = some c := by
  intro w
  induction w with
  | nil => simp [endsWithSeq]
  | cons a rest ih =>
    cases rest with
    | nil => simp [endsWithSeq, List.getLast?]
    | cons b t =>
      rw [List.getLast?_cons_cons, ← ih]
      show (decide (1 ≤ t.length + 1 + 1) &&
        decide ((a :: b :: t).drop (t.length + 1 + 1 - 1) = [c])) = true ↔ _
      rw [show t.length + 1 + 1 - 1 = t.length + 1 from rfl]
      rw [show (a :: b :: t).drop (t.length + 1) = (b :: t).drop (t.length) from rfl]
      show _ ↔ (decide (1 ≤ t.length + 1) &&
        decide ((b :: t).drop (t.length + 1 - 1) = [c])) = true
      rw [show t.length + 1 - 1 = t.length from rfl]
      simp

/-- A true suffix test pins down the last element of the word. -/
theorem endsWithSeq_getLast (w suf : List Char) (c : Char)
    (hsuf : suf.getLast? = some c) (h : endsWithSeq w suf = true) :
    w.getLast? = some c := by
  simp only [endsWithSeq, Bool.and_eq_true, decide_eq_true_eq] at h
  obtain ⟨hlen, hdrop⟩ := h
  have hsplit : w = w.take (w.length - suf.length) ++ suf := by
    conv_lhs => rw [← List.take_append_drop (w.length - suf.length) w]
    rw [hdrop]
  rw [hsplit]
  rw [List.getLast?_append_of_ne_nil]
  · exact hsuf
  · intro hnil
    rw [hnil] at hsuf
    cases hsuf

theorem cleanWord_take (w : List Char) (n : Nat) (h : ∀ c ∈ w, isLowAlnum c = true) :
    ∀ c ∈ w.take n, isLowAlnum c = true :=
  fun c hc => h c (List.mem_of_mem_take hc)

/-- singularize keeps a word inside the clean alphabet and nonempty. -/
theorem singularize_clean (w : List Char) (hw : cleanWord w) :
    cleanWord (singularize w) := by
  obtain ⟨hne, hchars⟩ := hw
  unfold singularize
  by_cases h1 : w = [] ∨ w.length ≤ 3
  · rw [if_pos (by simpa using h1)]
    exact ⟨hne, hchars⟩
  · rw [if_neg (by simpa using h1)]
    push_neg at h1
    obtain ⟨_, hlen⟩ := h1
    by_cases h2 : w ∈ exceptionsWords
    · rw [if_pos h2]
      exact ⟨hne, hchars⟩
    · rw [if_neg h2]
      have hw3 : pyRemove (pyRemove w ['/', 's']) ['(', 's', ')'] = w := by
        rw [pyRemove_id w '/' ['s'] (by decide) hchars,
          pyRemove_id w '(' ['s', ')'] (by decide) hchars]
      rw [hw3]
      have hlen' : 4 ≤ w.length := by omega
      unfold singularizeSuffix
      split_ifs with hies hes hs
      · refine ⟨by simp, ?_⟩
        intro c hc
        rcases List.mem_append.mp hc with hc | hc
        · exact hchars c (List.mem_of_mem_take hc)
        · simp at hc
          rw [hc]
          decide
      · refine ⟨?_, cleanWord_take w _ hchars⟩
        have : (w.take (w.length - 2)).length = w.length - 2 :=
          List.length_take_of_le (by omega)
        intro hnil
        rw [hnil] at this
        simp at this
        omega
      · refine ⟨?_, cleanWord_take w _ hchars⟩
        have : (w.take (w.length - 1)).length = w.length - 1 :=
          List.length_take_of_le (by omega)
        intro hnil
        rw [hnil] at this
        simp at this
        omega
      · exact ⟨hne, hchars⟩

/-- singularize is the identity on clean words that do not end in s. -/
theorem singularize_id (w : List Char) (hw : cleanWord w)
    (hs : endsWithSeq w ['s'] = false) : singularize w = w := by
  obtain ⟨hne, hchars⟩ := hw
  unfold singularize
  by_cases h1 : w = [] ∨ w.length ≤ 3
  · rw [if_pos (by simpa using h1)]
  · rw [if_neg (by simpa using h1)]
    by_cases h2 : w ∈ exceptionsWords
    · rw [if_pos h2]
    · rw [if_neg h2]
      have hw3 : pyRemove (pyRemove w ['/', 's']) ['(', 's', ')'] = w := by
        rw [pyRemove_id w '/' ['s'] (by decide) hchars,
          pyRemove_id w '(' ['s', ')'] (by decide) hchars]
      rw [hw3]
      have hlast : ¬ w.getLast? = some 's' := by
        intro hcon
        rw [(endsWithSeq_singleton 's' w).mpr hcon] at hs
        cases hs
      have hies : endsWithSeq w ['i', 'e', 's'] = false := by
        cases hval : endsWithSeq w ['i', 'e', 's']
        · rfl
        · exact absurd (endsWithSeq_getLast w ['i', 'e', 's'] 's' rfl hval) hlast
      have hes : endsWithSeq w ['e', 's'] = false := by
        cases hval : endsWithSeq w ['e', 's']
        · rfl
        · exact absurd (endsWithSeq_getLast w ['e', 's'] 's' rfl hval) hlast
      unfold singularizeSuffix
      rw [hies, hes, hs]
      simp

/-- Every word produced by str.split() on a cleaned string is a nonempty
run of a-z0-9 characters. -/
theorem splitWordsAux_clean (cs : List Char) :
    ∀ (acc : List Char), (∀ c ∈ cs, isLowAlnum c = true ∨ c = ' ') →
      (∀ c ∈ acc, isLowAlnum c = true) →
      ∀ w ∈ splitWordsAux cs acc, cleanWord w := by
  induction cs with
  | nil =>
    intro acc _ hacc w hw
    unfold splitWordsAux at hw
    by_cases hne : acc = []
    · rw [if_pos hne] at hw
      cases hw
    · rw [if_neg hne] at hw
      simp at hw
      rw [hw]
      refine ⟨by simpa using hne, ?_⟩
      intro c hc
      exact hacc c (List.mem_reverse.mp hc)
  | cons c rest ih =>
    intro acc hcs hacc w hw
    have hrest : ∀ x ∈ rest, isLowAlnum x = true ∨ x = ' ' :=
      fun x hx => hcs x (List.mem_cons_of_mem _ hx)
    unfold splitWordsAux at hw
    by_cases hsp : c = ' '
    · rw [if_pos hsp] at hw
      by_cases hne : acc = []
      · rw [if_pos hne] at hw
        exact ih [] hrest (by simp) w hw
      · rw [if_neg hne] at hw
        rcases List.mem_cons.mp hw with hw | hw
        · rw [hw]
          refine ⟨by simpa using hne, ?_⟩
          intro x hx
          exact hacc x (List.mem_reverse.mp hx)
        · exact ih [] hrest (by simp) w hw
    · rw [if_neg hsp] at hw
      have hc : isLowAlnum c = true := by
        rcases hcs c (List.mem_cons_self _ _) with h | h
        · exact h
        · exact absurd h hsp
      refine ih (c :: acc) hrest ?_ w hw
      intro x hx
      rcases List.mem_cons.mp hx with hx | hx
      · rw [hx]; exact hc
      · exact hacc x hx

theorem splitWords_clean (cs : List Char) (h : ∀ c ∈ cs, isLowAlnum c = true ∨ c = ' ') :
    ∀ w ∈ splitWords cs, cleanWord w :=
  splitWordsAux_clean cs [] h (by simp)

/-- Every character of a joined word list is a word character or the
separating space. -/
theorem mem_joinWords (ws : List (List Char)) (c : Char) (hc : c ∈ joinWords ws) :
    (∃ w ∈ ws, c ∈ w) ∨ c = ' ' := by
  induction ws with
  | nil => cases hc
  | cons w rest ih =>
    cases rest with
    | nil =>
      left
      exact ⟨w, List.mem_cons_self _ _, hc⟩
    | cons w2 rest2 =>
      rw [show joinWords (w :: w2 :: rest2) = w ++ ' ' :: joinWords (w2 :: rest2) from rfl] at hc
      rcases List.mem_append.mp hc with hc | hc
      · exact Or.inl ⟨w, List.mem_cons_self _ _, hc⟩
      · rcases List.mem_cons.mp hc with hc | hc
        · exact Or.inr hc
        · rcases ih hc with ⟨u, hu, hcu⟩ | hc
          · exact Or.inl ⟨u, List.mem_cons_of_mem _ hu, hcu⟩
          · exact Or.inr hc

/-- The joined list of a good word list opens with the first character of
the first word. -/
theorem joinWords_head (w : List Char) (rest : List (List Char)) (hne : w ≠ []) :
    (joinWords (w :: rest)).head? = w.head? := by
  cases rest with
  | nil => rfl
  | cons w2 rest2 =>
    rw [show joinWords (w :: w2 :: rest2) = w ++ ' ' :: joinWords (w2 :: rest2) from rfl]
    cases w with
    | nil => exact absurd rfl hne
    | cons a t => rfl

/-- The joined list of a good word list ends with the last character of the
last word. -/
theorem joinWords_getLast (ws : List (List Char)) (h : ∀ w ∈ ws, w ≠ []) (hne : ws ≠ []) :
    ∃ wl, ws.getLast? = some wl ∧ (joinWords ws).getLast? = wl.getLast? := by
  induction ws with
  | nil => exact absurd rfl hne
  | cons w rest ih =>
    cases rest with
    | nil => exact ⟨w, rfl, rfl⟩
    | cons w2 rest2 =>
      obtain ⟨wl, hwl, hj⟩ := ih (fun u hu => h u (List.mem_cons_of_mem _ hu)) (by simp)
      refine ⟨wl, ?_, ?_⟩
      · rw [List.getLast?_cons_cons]
        exact hwl
      · rw [show joinWords (w :: w2 :: rest2) = w ++ ' ' :: joinWords (w2 :: rest2) from rfl]
        rw [List.getLast?_append_of_ne_nil w (by simp)]
        have hjne : joinWords (w2 :: rest2) ≠ [] := by
          intro hnil
          rw [hnil] at hj
          have hwlne : wl ≠ [] :=
            h wl (List.mem_cons_of_mem _ (List.mem_of_mem_getLast? (Option.mem_def.mpr hwl)))
          have hj2 : wl.getLast? = none := hj.symm
          rw [List.getLast?_eq_none_iff] at hj2
          exact hwlne hj2
        cases hcase : joinWords (w2 :: rest2) with
        | nil => exact absurd hcase hjne
        | cons a t =>
          rw [hcase] at hj
          rw [← hj, List.getLast?_cons_cons]

/-- Stripping whitespace is the identity when both ends are non-space. -/
theorem stripWsChars_id (cs : List Char) (hh : ∀ c, cs.head? = some c → isPyWs c = false)
    (hl : ∀ c, cs.getLast? = some c → isPyWs c = false) : stripWsChars cs = cs := by
  unfold stripWsChars stripEnds
  cases hc : cs with
  | nil => rfl
  | cons a t =>
    have ha : isPyWs a = false := hh a (by rw [hc]; rfl)
    rw [List.dropWhile_cons_of_neg (by rw [ha]; simp)]
    cases hr : (a :: t).reverse with
    | nil =>
      rw [List.reverse_eq_nil_iff] at hr
      exact absurd hr (by simp)
    | cons b u =>
      have hb : (a :: t).getLast? = some b := by
        rw [← List.head?_reverse, hr]
        rfl
      have hbws : isPyWs b = false := hl b (by rw [hc]; exact hb)
      rw [List.dropWhile_cons_of_neg (by rw [hbws]; simp)]
      rw [← hr, List.reverse_reverse]

theorem isPyWs_of_lowAlnum (c : Char) (h : isLowAlnum c = true) : isPyWs c = false := by
  cases hws : isPyWs c
  · rfl
  · exfalso
    have hb := lowAlnumBounds c h
    simp only [isPyWs, Bool.or_eq_true, decide_eq_true_eq] at hws
    rcases hws with ((((h1 | h1) | h1) | h1) | h1) | h1 <;>
      (rw [h1] at hb; revert hb; decide)

theorem map_cleanChar_id (cs : List Char) (h : ∀ c ∈ cs, isLowAlnum c = true ∨ c = ' ') :
    cs.map cleanChar = cs := by
  induction cs with
  | nil => rfl
  | cons c rest ih =>
    rw [List.map_cons, cleanChar_id c (h c (List.mem_cons_self _ _)),
      ih (fun x hx => h x (List.mem_cons_of_mem _ hx))]

theorem joinWords_ne_nil (ws : List (List Char)) (hg : goodWords ws) : joinWords ws ≠ [] := by
  obtain ⟨hne, hw⟩ := hg
  cases ws with
  | nil => exact absurd rfl hne
  | cons w rest =>
    have hwne : w ≠ [] := (hw w (List.mem_cons_self _ _)).1
    cases rest with
    | nil => exact hwne
    | cons w2 r2 =>
      show w ++ ' ' :: joinWords (w2 :: r2) ≠ []
      simp

/-- The char-level alphabet of a good joined word list. -/
theorem joinWords_chars (ws : List (List Char)) (hg : goodWords ws) :
    ∀ c ∈ joinWords ws, isLowAlnum c = true ∨ c = ' ' := by
  intro c hc
  rcases mem_joinWords ws c hc with ⟨w, hwmem, hcw⟩ | hc
  · exact Or.inl ((hg.2 w hwmem).2 c hcw)
  · exact Or.inr hc

theorem stripWs_joinWords (ws : List (List Char)) (hg : goodWords ws) :
    stripWsChars (joinWords ws) = joinWords ws := by
  obtain ⟨hne, hw⟩ := hg
  cases ws with
  | nil => exact absurd rfl hne
  | cons w rest =>
    apply stripWsChars_id
    · intro c hc
      rw [joinWords_head w rest (hw w (List.mem_cons_self _ _)).1] at hc
      have hcm : c ∈ w := List.mem_of_mem_head? (Option.mem_def.mpr hc)
      exact isPyWs_of_lowAlnum c ((hw w (List.mem_cons_self _ _)).2 c hcm)
    · intro c hc
      obtain ⟨wl, hwl, hj⟩ := joinWords_getLast (w :: rest) (fun u hu => (hw u hu).1) (by simp)
      rw [hj] at hc
      have hcm : c ∈ wl := List.mem_of_mem_getLast? (Option.mem_def.mpr hc)
      have hwlm : wl ∈ w :: rest := List.mem_of_mem_getLast? (Option.mem_def.mpr hwl)
      exact isPyWs_of_lowAlnum c ((hw wl hwlm).2 c hcm)

theorem popPluralS_good (ws : List (List Char)) (hg : goodWords ws) :
    goodWords (popPluralS ws) := by
  obtain ⟨hne, hw⟩ := hg
  unfold popPluralS
  split_ifs with h
  · simp only [Bool.and_eq_true, decide_eq_true_eq] at h
    obtain ⟨_, hlen⟩ := h
    constructor
    · intro hnil
      have hlength := congrArg List.length hnil
      rw [List.length_dropLast] at hlength
      simp at hlength
      omega
    · intro u hu
      exact hw u (List.dropLast_subset ws hu)
  · exact ⟨hne, hw⟩

theorem popPluralS_id (ws : List (List Char)) (wl : List Char)
    (hwl : ws.getLast? = some wl) (hne : wl ≠ ['s']) : popPluralS ws = ws := by
  unfold popPluralS
  split_ifs with h
  · simp only [Bool.and_eq_true, decide_eq_true_eq] at h
    rw [hwl] at h
    exact absurd (Option.some.inj h.1) hne
  · rfl

theorem mapLast_mem (f : List Char → List Char) :
    ∀ (ws : List (List Char)) (u : List Char), u ∈ mapLast f ws →
      u ∈ ws ∨ ∃ w ∈ ws, u = f w := by
  intro ws
  induction ws with
  | nil => intro u hu; cases hu
  | cons w rest ih =>
    cases rest with
    | nil =>
      intro u hu
      have : u = f w := List.mem_singleton.mp hu
      exact Or.inr ⟨w, List.mem_cons_self _ _, this⟩
    | cons w2 r2 =>
      intro u hu
      rcases List.mem_cons.mp hu with h | h
      · exact Or.inl (h ▸ List.mem_cons_self _ _)
      · rcases ih u h with h | ⟨w3, hmem, heq⟩
        · exact Or.inl (List.mem_cons_of_mem _ h)
        · exact Or.inr ⟨w3, List.mem_cons_of_mem _ hmem, heq⟩

theorem mapLast_good (f : List Char → List Char)
    (hf : ∀ w, cleanWord w → cleanWord (f w)) (ws : List (List Char)) (hg : goodWords ws) :
    goodWords (mapLast f ws) := by
  obtain ⟨hne, hw⟩ := hg
  constructor
  · cases ws with
    | nil => exact absurd rfl hne
    | cons w rest =>
      cases rest with
      | nil => simp [mapLast]
      | cons w2 r2 => simp [mapLast]
  · intro u hu
    rcases mapLast_mem f ws u hu with h | ⟨w, hmem, heq⟩
    · exact hw u h
    · exact heq ▸ hf w (hw w hmem)

theorem mapLast_id (f : List Char → List Char) :
    ∀ (ws : List (List Char)) (wl : List Char), ws.getLast? = some wl → f wl = wl →
      mapLast f ws = ws := by
  intro ws
  induction ws with
  | nil => intro wl h; cases h
  | cons w rest ih =>
    intro wl hwl hf
    cases rest with
    | nil =>
      have hw : wl = w := by
        have := by simpa using hwl
        exact this.symm
      show [f w] = [w]
      rw [← hw, hf]
    | cons w2 r2 =>
      rw [List.getLast?_cons_cons] at hwl
      show w :: mapLast f (w2 :: r2) = w :: w2 :: r2
      rw [ih wl hwl hf]

/-- Zeta-reduced equation for normTagBase. -/
theorem normTagBase_eq (s : String) :
    normTagBase s = (if splitWords ((normalize_text s).toList.map cleanChar) = [] then ""
      else String.mk (stripWsChars (joinWords (mapLast singularize
        (popPluralS (splitWords ((normalize_text s).toList.map cleanChar))))))) := rfl

/-- The output of normTagBase is empty or a space-joined list of nonempty
a-z0-9 words. -/
theorem normTagBase_shape (s : String) :
    normTagBase s = "" ∨ ∃ ws, goodWords ws ∧ normTagBase s = String.mk (joinWords ws) := by
  rw [normTagBase_eq]
  have hclean : ∀ c ∈ (normalize_text s).toList.map cleanChar,
      isLowAlnum c = true ∨ c = ' ' := by
    intro c hc
    rcases List.mem_map.mp hc with ⟨a, _, rfl⟩
    exact cleanChar_image a
  by_cases hws : splitWords ((normalize_text s).toList.map cleanChar) = []
  · left
    rw [if_pos hws]
  · right
    rw [if_neg hws]
    have hg0 : goodWords (splitWords ((normalize_text s).toList.map cleanChar)) :=
      ⟨hws, splitWords_clean _ hclean⟩
    have hg1 : goodWords (popPluralS (splitWords ((normalize_text s).toList.map cleanChar))) :=
      popPluralS_good _ hg0
    have hg2 : goodWords (mapLast singularize
        (popPluralS (splitWords ((normalize_text s).toList.map cleanChar)))) :=
      mapLast_good singularize singularize_clean _ hg1
    exact ⟨_, hg2, by rw [stripWs_joinWords _ hg2]⟩

/-- normTagBase is the identity on a space-joined good word list whose last
word does not end in s. -/
theorem normTagBase_id (ws : List (List Char)) (hg : goodWords ws)
    (wl : List Char) (hwl : ws.getLast? = some wl) (hs : endsWithSeq wl ['s'] = false) :
    normTagBase (String.mk (joinWords ws)) = String.mk (joinWords ws) := by
  have hchars : ∀ c ∈ joinWords ws, isLowAlnum c = true ∨ c = ' ' := joinWords_chars ws hg
  have hnt : normalize_text (String.mk (joinWords ws)) = String.mk (joinWords ws) :=
    normalize_text_id _ hchars
  rw [normTagBase_eq, hnt]
  have htl : (String.mk (joinWords ws)).toList = joinWords ws := rfl
  rw [htl, map_cleanChar_id _ hchars, splitWords_joinWords ws hg.2]
  rw [popPluralS_id ws wl hwl (by intro hcon; rw [hcon] at hs; cases hs)]
  have hwlmem : wl ∈ ws := List.mem_of_mem_getLast? (Option.mem_def.mpr hwl)
  rw [mapLast_id singularize ws wl hwl (singularize_id wl (hg.2 wl hwlmem) hs)]
  rw [if_neg hg.1, stripWs_joinWords ws hg]

/-- Equation for one unwrapping step of normalize_tag on a string value. -/
theorem normTagFuel_succ_pstr (fuel : Nat) (s : String) :
    normTagFuel (fuel + 1) (PyVal.pstr s) =
      (if pyTruthy (PyVal.pstr s) = false then ""
       else if s = "[]" || stripWs s = "" then ""
       else if startsWithChar s '[' && endsWithChar s ']' then
         match jsonLoads s with
         | some (PyVal.plist []) => ""
         | some (PyVal.plist (t0 :: _)) => normTagFuel fuel t0
         | _ => normTagBase s
       else normTagBase s) := rfl

/-- Equation for one unwrapping step of normalize_tag on a list value. -/
theorem normTagFuel_succ_plist (fuel : Nat) (l : List PyVal) :
    normTagFuel (fuel + 1) (PyVal.plist l) =
      (if pyTruthy (PyVal.plist l) = false then ""
       else match l with
       | t0 :: _ => normTagFuel fuel t0
       | [] => "") := rfl

/-- The output of normalize_tag is empty or a space-joined list of nonempty
a-z0-9 words. -/
theorem normTagFuel_shape : ∀ (fuel : Nat) (v : PyVal),
    normTagFuel fuel v = "" ∨
      ∃ ws, goodWords ws ∧ normTagFuel fuel v = String.mk (joinWords ws) := by
  intro fuel
  induction fuel with
  | zero => intro v; left; rfl
  | succ n ih =>
    intro v
    match v with
    | PyVal.pnone => left; rfl
    | PyVal.pint k =>
      left
      show (if pyTruthy (PyVal.pint k) = false then "" else "") = ""
      split_ifs <;> rfl
    | PyVal.plist l =>
      rw [normTagFuel_succ_plist]
      by_cases h : pyTruthy (PyVal.plist l) = false
      · left; rw [if_pos h]
      · rw [if_neg h]
        cases l with
        | nil => left; rfl
        | cons t0 rest => exact ih t0
    | PyVal.pstr s =>
      rw [normTagFuel_succ_pstr]
      by_cases h1 : pyTruthy (PyVal.pstr s) = false
      · left; rw [if_pos h1]
      · rw [if_neg h1]
        split_ifs with h2 h3
        · left; rfl
        · cases hj : jsonLoads s with
          | none => exact normTagBase_shape s
          | some v2 =>
            cases v2 with
            | plist l2 =>
              cases l2 with
              | nil => left; rfl
              | cons t0 r => exact ih t0
            | pstr s2 => exact normTagBase_shape s
            | pint k => exact normTagBase_shape s
            | pnone => exact normTagBase_shape s
        · exact normTagBase_shape s

/-- A good joined word list never opens with a bracket. -/
theorem startsWithChar_joinWords (ws : List (List Char)) (hg : goodWords ws) :
    startsWithChar (String.mk (joinWords ws)) '[' = false := by
  obtain ⟨hne, hw⟩ := hg
  cases ws with
  | nil => exact absurd rfl hne
  | cons w rest =>
    obtain ⟨hwne, hwchars⟩ := hw w (List.mem_cons_self _ _)
    cases hwc : w with
    | nil => exact absurd hwc hwne
    | cons a w' =>
      have ha : isLowAlnum a = true := by
        apply hwchars
        rw [hwc]
        exact List.mem_cons_self _ _
      have hna : ¬ a = '[' := by
        intro hcon
        rw [hcon] at ha
        cases ha
      cases rest with
      | nil =>
        show (match joinWords [a :: w'] with
          | [] => false
          | x :: _ => decide (x = '[')) = false
        show decide (a = '[') = false
        simp [hna]
      | cons w2 r2 =>
        show (match (a :: w') ++ ' ' :: joinWords (w2 :: r2) with
          | [] => false
          | x :: _ => decide (x = '[')) = false
        show decide (a = '[') = false
        simp [hna]

/-- C3: normalize_tag is idempotent — feeding an already-normalized tag back
through normalize_tag returns it unchanged — provided the normalized form's
last token does not end in the letter s.  (The unrestricted statement of the
spec is refuted by C3_counterexample below: the "-es" suffix rule can emit a
token that still ends in s, which a second pass singularizes again.) -/
theorem C3_normalize_tag_idempotent (v : PyVal)
    (h : lastTokenEndsS (normalize_tag v) = false) :
    normTagStr (normalize_tag v) = normalize_tag v := by
  rcases normTagFuel_shape (pySize v) v with hz | ⟨ws, hg, heq⟩
  · have hz' : normalize_tag v = "" := hz
    rw [hz']
    rfl
  · have heq' : normalize_tag v = String.mk (joinWords ws) := heq
    rw [heq'] at h ⊢
    obtain ⟨hne, hw⟩ := hg
    have hsplit : splitWords (String.mk (joinWords ws)).toList = ws :=
      splitWords_joinWords ws hw
    unfold lastTokenEndsS at h
    rw [hsplit] at h
    cases hlast : ws.getLast? with
    | none =>
      rw [List.getLast?_eq_none_iff] at hlast
      exact absurd hlast hne
    | some wl =>
      rw [hlast] at h
      have hs : endsWithSeq wl ['s'] = false := h
      have hjne : joinWords ws ≠ [] := joinWords_ne_nil ws ⟨hne, hw⟩
      have hstr : String.mk (joinWords ws) ≠ "" := by
        intro hcon
        exact hjne (congrArg String.data hcon)
      have htr : pyTruthy (PyVal.pstr (String.mk (joinWords ws))) = true := by
        show (!(String.mk (joinWords ws)).isEmpty) = true
        cases hie : (String.mk (joinWords ws)).isEmpty
        · rfl
        · exact absurd ((String.isEmpty_iff (String.mk (joinWords ws))).mp hie) hstr
      have hsw : startsWithChar (String.mk (joinWords ws)) '[' = false :=
        startsWithChar_joinWords ws ⟨hne, hw⟩
      have hne2 : String.mk (joinWords ws) ≠ "[]" := by
        intro hcon
        rw [hcon] at hsw
        rw [show startsWithChar "[]" '[' = true from by decide] at hsw
        cases hsw
      have hstrip : stripWs (String.mk (joinWords ws)) = String.mk (joinWords ws) := by
        show String.mk (stripWsChars (String.mk (joinWords ws)).toList) = _
        rw [show (String.mk (joinWords ws)).toList = joinWords ws from rfl]
        rw [stripWs_joinWords ws ⟨hne, hw⟩]
      have hstrip2 : stripWs (String.mk (joinWords ws)) ≠ "" := by
        rw [hstrip]
        exact hstr
      show normTagFuel (pySize (PyVal.pstr (String.mk (joinWords ws))))
        (PyVal.pstr (String.mk (joinWords ws))) = String.mk (joinWords ws)
      rw [show pySize (PyVal.pstr (String.mk (joinWords ws))) =
        (String.mk (joinWords ws)).length + 1 from rfl]
      rw [normTagFuel_succ_pstr]
      rw [if_neg (by rw [htr]; simp)]
      rw [if_neg (by simp [hne2, hstrip2])]
      rw [if_neg (by simp [hsw])]
      exact normTagBase_id ws ⟨hne, hw⟩ wl hlast hs

/-- C3 witness: the amended idempotence theorem applied to the concrete tag
"video games", whose normalized form "video game" does not end in s. -/
theorem C3_witness :
    lastTokenEndsS (normalize_tag (PyVal.pstr "video games")) = false ∧
      normTagStr (normalize_tag (PyVal.pstr "video games")) =
        normalize_tag (PyVal.pstr "video games") :=
  ⟨by decide, C3_normalize_tag_idempotent (PyVal.pstr "video games") (by decide)⟩

/-- C3 counterexample: normalize_tag is not idempotent as stated by the
spec — "houses" normalizes to "hous" (the -ses rule strips "es"), and a
second pass strips the remaining lone "s" to give "hou". -/
theorem C3_counterexample :
    normTagStr "houses" = "hous" ∧
      normTagStr (normTagStr "houses") ≠ normTagStr "houses" := by
  constructor
  · decide
  · decide

/-! ### Lemmas towards C2 (blacklist exclusion) -/

theorem lookup_cons_key {β : Type} (a b : String) (v : β) (t : List (String × β)) :
    List.lookup b ((a, v) :: t) = if a = b then some v else List.lookup b t := by
  simp only [List.lookup]
  cases heq : (b == a) with
  | true => rw [if_pos (eq_of_beq heq).symm]
  | false =>
    rw [if_neg (fun hc => by rw [hc] at heq; simp at heq)]

theorem lookup_mem {β : Type} :
    ∀ (l : List (String × β)) (k : String) (v : β), l.lookup k = some v → (k, v) ∈ l := by
  intro l
  induction l with
  | nil => intro k v h; cases h
  | cons q rest ih =>
    intro k v h
    obtain ⟨qk, qv⟩ := q
    rw [lookup_cons_key] at h
    split_ifs at h with hq
    · subst hq
      injection h with h2
      subst h2
      exact List.mem_cons_self _ _
    · exact List.mem_cons_of_mem _ (ih k v h)

theorem lookup_of_mem_of_nodup {β : Type} :
    ∀ (l : List (String × β)), (l.map Prod.fst).Nodup →
      ∀ (pk : String) (pv : β), (pk, pv) ∈ l → l.lookup pk = some pv := by
  intro l
  induction l with
  | nil => intro _ pk pv hp; cases hp
  | cons q rest ih =>
    intro hnd pk pv hp
    obtain ⟨qk, qv⟩ := q
    rw [List.map_cons, List.nodup_cons] at hnd
    rcases List.mem_cons.mp hp with heq | hp2
    · injection heq with h1 h2
      subst h1
      subst h2
      rw [lookup_cons_key, if_pos rfl]
    · have hpk : pk ∈ rest.map Prod.fst := List.mem_map.mpr ⟨(pk, pv), hp2, rfl⟩
      have hqk : qk ≠ pk := fun hcon => hnd.1 (hcon ▸ hpk)
      rw [lookup_cons_key, if_neg hqk]
      exact ih hnd.2 pk pv hp2

theorem lookup_map_upd (k v b : String) (hk : k ≠ b) :
    ∀ d : List (String × String),
      (d.map (fun p => if p.1 = k then (k, v) else p)).lookup b = d.lookup b := by
  intro d
  induction d with
  | nil => rfl
  | cons q rest ih =>
    obtain ⟨qk, qv⟩ := q
    rw [List.map_cons]
    by_cases hq : (qk, qv).1 = k
    · rw [if_pos hq]
      simp only at hq
      rw [lookup_cons_key, lookup_cons_key]
      rw [if_neg hk, if_neg (by rw [hq]; exact hk)]
      exact ih
    · rw [if_neg hq]
      simp only at hq
      rw [lookup_cons_key, lookup_cons_key]
      by_cases hqb : qk = b
      · rw [if_pos hqb, if_pos hqb]
      · rw [if_neg hqb, if_neg hqb]
        exact ih

theorem lookup_append_single_ne (b k v : String) (hk : k ≠ b) :
    ∀ d : List (String × String), (d ++ [(k, v)]).lookup b = d.lookup b := by
  intro d
  induction d with
  | nil =>
    show List.lookup b [(k, v)] = none
    rw [lookup_cons_key, if_neg hk]
    rfl
  | cons q rest ih =>
    obtain ⟨qk, qv⟩ := q
    rw [List.cons_append, lookup_cons_key, lookup_cons_key]
    by_cases h : qk = b
    · rw [if_pos h, if_pos h]
    · rw [if_neg h, if_neg h]
      exact ih

/-- Setting a key other than b does not change whether b is present. -/
theorem dictHas_dictSet_ne (d : List (String × String)) (k v b : String) (hk : k ≠ b) :
    dictHas (dictSet d k v) b = dictHas d b := by
  unfold dictHas dictSet
  split_ifs with h
  · rw [lookup_map_upd k v b hk d]
  · rw [lookup_append_single_ne b k v hk d]

theorem foldl_preserve {α β : Type} (P : α → Prop) (f : α → β → α) :
    ∀ (l : List β) (init : α), P init →
      (∀ p ∈ l, ∀ d, P d → P (f d p)) → P (l.foldl f init) := by
  intro l
  induction l with
  | nil => intro init h _; exact h
  | cons p rest ih =>
    intro init h hstep
    exact ih (f init p) (hstep p (List.mem_cons_self _ _) init h)
      (fun q hq => hstep q (List.mem_cons_of_mem _ hq))

/-- resolve_norm leaves a norm whose modification is not a merge unchanged. -/
theorem resolve_norm_blacklist (mods : List (String × TagMod)) (b : String) (m : TagMod)
    (hlk : mods.lookup b = some m) (hact : m.action = "blacklist") :
    resolve_norm b mods = b := by
  unfold resolve_norm
  rw [resolveNormFuel_pos _ (by omega) _ _ _]
  have hstep : resolveStep mods [b] b = none := by
    unfold resolveStep
    rw [hlk]
    show (if m.action = "merge" then _ else none) = none
    rw [if_neg (by rw [hact]; decide)]
  rw [hstep]

/-- addSeriesTagPlain only ever writes its own norm key. -/
theorem addSeriesTagPlain_pres (mods : List (String × TagMod))
    (d : List (String × String)) (norm t b : String) (hne : norm ≠ b)
    (hd : dictHas d b = false) : dictHas (addSeriesTagPlain mods d norm t) b = false := by
  simp only [addSeriesTagPlain]
  split_ifs with h1 h2
  · rw [dictHas_dictSet_ne _ _ _ _ hne]
    exact hd
  · cases hlk2 : mods.lookup norm with
    | some m2 =>
      show dictHas (if m2.action = "whitelist" then d else dictSet d norm (sanitize_tag t))
        b = false
      split_ifs with h3
      · exact hd
      · rw [dictHas_dictSet_ne _ _ _ _ hne]
        exact hd
    | none =>
      show dictHas (dictSet d norm (sanitize_tag t)) b = false
      rw [dictHas_dictSet_ne _ _ _ _ hne]
      exact hd
  · exact hd

/-- addSeriesTag never writes the key of a blacklisted norm that is no
merge's target. -/
theorem addSeriesTag_pres (mods : List (String × TagMod)) (b : String) (m : TagMod)
    (hlk : mods.lookup b = some m) (hact : m.action = "blacklist")
    (hmt : ∀ p ∈ mods, p.2.action = "merge" → p.2.target_norm ≠ some b)
    (d : List (String × String)) (t : String)
    (hd : dictHas d b = false) : dictHas (addSeriesTag mods d t) b = false := by
  simp only [addSeriesTag]
  split_ifs with h1
  · exact hd
  · cases hlk2 : mods.lookup (normTagStr t) with
    | some mod =>
      show dictHas (if mod.action = "blacklist" then d
        else if mod.action = "merge" && optTruthy mod.target_norm then
          (if !dictHas d (mod.target_norm.getD "") then
            dictSet d (mod.target_norm.getD "") (sanitize_tag t) else d)
        else addSeriesTagPlain mods d (normTagStr t) t) b = false
      split_ifs with h2 h3 h4
      · exact hd
      · have hpmem : (normTagStr t, mod) ∈ mods := lookup_mem mods (normTagStr t) mod hlk2
        rw [Bool.and_eq_true] at h3
        have hmerge : mod.action = "merge" := by simpa using h3.1
        have htruth := h3.2
        cases hto : mod.target_norm with
        | none =>
          rw [hto] at htruth
          cases htruth
        | some s =>
          have hsb : s ≠ b := by
            intro hcon
            exact (hmt (normTagStr t, mod) hpmem hmerge) (by rw [hto, hcon])
          show dictHas (dictSet d s (sanitize_tag t)) b = false
          rw [dictHas_dictSet_ne _ _ _ _ hsb]
          exact hd
      · exact hd
      · refine addSeriesTagPlain_pres mods d (normTagStr t) t b ?_ hd
        intro hcon
        rw [hcon, hlk] at hlk2
        injection hlk2 with he
        rw [he] at hact
        exact h2 hact
    | none =>
      refine addSeriesTagPlain_pres mods d (normTagStr t) t b ?_ hd
      intro hcon
      rw [hcon, hlk] at hlk2
      cases hlk2

/-- The rebuilt vocabulary never contains a blacklisted norm, provided the
norm is not also some merge modification's target. -/
theorem buildSystemTags_excludes (mods : List (String × TagMod)) (b : String) (m : TagMod)
    (hlk : mods.lookup b = some m) (hact : m.action = "blacklist")
    (hnd : (mods.map Prod.fst).Nodup)
    (hmt : ∀ p ∈ mods, p.2.action = "merge" → p.2.target_norm ≠ some b)
    (rows : List SeriesTagRow) :
    dictHas (buildSystemTags mods rows) b = false := by
  unfold buildSystemTags
  refine foldl_preserve (fun d => dictHas d b = false) _ rows _ ?_ ?_
  · unfold addMergeTargets
    refine foldl_preserve (fun d => dictHas d b = false) _ mods _ ?_ ?_
    · unfold addWhitelistTags
      refine foldl_preserve (fun d => dictHas d b = false) _ mods _ rfl ?_
      intro p hp d hd
      split_ifs with h
      · rw [Bool.and_eq_true] at h
        have hwl : p.2.action = "whitelist" := by simpa using h.1
        have hpne : p.1 ≠ b := by
          intro hcon
          have hlp := lookup_of_mem_of_nodup mods hnd p.1 p.2 hp
          rw [hcon, hlk] at hlp
          injection hlp with he
          rw [← he] at hwl
          rw [hact] at hwl
          exact absurd hwl (by decide)
        rw [dictHas_dictSet_ne _ _ _ _ hpne]
        exact hd
      · exact hd
    · intro p hp d hd
      split_ifs with h hhas
      · exact hd
      · rw [Bool.and_eq_true] at h
        have hmerge : p.2.action = "merge" := by simpa using h.1
        have htruth := h.2
        cases hto : p.2.target_norm with
        | none =>
          rw [hto] at htruth
          cases htruth
        | some s =>
          have hsb : s ≠ b := by
            intro hcon
            exact (hmt p hp hmerge) (by rw [hto, hcon])
          show dictHas (dictSet d s (mergeTargetDisplay mods ((some s).getD ""))) b = false
          rw [dictHas_dictSet_ne _ _ _ _ hsb]
          exact hd
      · exact hd
  · intro r hr d hd
    refine foldl_preserve (fun d2 => dictHas d2 b = false) _ (rowCombined r) _ hd ?_
    intro t ht d2 hd2
    exact addSeriesTag_pres mods b m hlk hact hmt d2 t hd2

/-- C2 (amended): a blacklisted norm that is not the target of any merge
modification is excluded from the rebuilt vocabulary (system_tags); but a
series whose explicit tags carry the blacklisted norm is still matched when
filtering by that tag — the match set of get_series_by_tags does not exclude
blacklisted norms (refuting the second half of the spec sentence, see
C2_counterexample). -/
theorem C2_blacklist_exclusion (mods : List (String × TagMod)) (b : String) (m : TagMod)
    (hlk : mods.lookup b = some m) (hact : m.action = "blacklist")
    (hnd : (mods.map Prod.fst).Nodup)
    (hmt : ∀ p ∈ mods, p.2.action = "merge" → p.2.target_norm ≠ some b)
    (hbne : b ≠ "") :
    (∀ rows : List SeriesTagRow, dictHas (buildSystemTags mods rows) b = false) ∧
    (∀ (sysTags : List (String × String)) (rows : List SeriesQueryRow)
        (row : SeriesQueryRow) (t : String),
      normTagStr t = b → b ∈ explicitNorms row → row ∈ rows →
        row ∈ get_series_by_tags mods sysTags rows [t]) := by
  constructor
  · intro rows
    exact buildSystemTags_excludes mods b m hlk hact hnd hmt rows
  · intro sysTags rows row t ht hb hrow
    have hres : resolve_norm b mods = b := resolve_norm_blacklist mods b m hlk hact
    unfold get_series_by_tags
    rw [List.mem_filter]
    refine ⟨hrow, ?_⟩
    unfold seriesMatches
    rw [List.all_eq_true]
    intro sel hsel
    have hsel2 : sel ∈ [resolve_norm b mods] := by
      unfold selectedNorms at hsel
      rw [List.filterMap_cons] at hsel
      rw [ht, if_neg hbne] at hsel
      simpa using hsel
    rw [List.mem_singleton, hres] at hsel2
    subst hsel2
    have hmem : sel ∈ seriesAllNorms mods sysTags row := by
      unfold seriesAllNorms
      refine List.mem_append.mpr (Or.inl ?_)
      refine List.mem_flatMap.mpr ⟨sel, hb, ?_⟩
      rw [hres]
      exact List.mem_cons_self _ _
    exact List.elem_iff.mpr hmem

/-- C2 witness: the amended theorem applied to a one-modification database
blacklisting "b" and a series tagged ["b"]. -/
theorem C2_witness :
    dictHas (buildSystemTags cexBlacklistMods [toTagRow cexBlacklistRow]) "b" = false ∧
    cexBlacklistRow ∈ get_series_by_tags cexBlacklistMods [] [cexBlacklistRow] ["b"] := by
  have h := C2_blacklist_exclusion cexBlacklistMods "b" cexBlacklistMod rfl rfl
    (by decide) (by decide) (by decide)
  exact ⟨h.1 [toTagRow cexBlacklistRow],
    h.2 [] [cexBlacklistRow] cexBlacklistRow "b" rfl (by decide) (List.mem_cons_self _ _)⟩

/-- C2 counterexample: with the norm "b" blacklisted, a series whose tags
column is ["b"] is still returned by get_series_by_tags when filtering by
"b" — matching does not exclude blacklisted norms. -/
theorem C2_counterexample :
    cexBlacklistMods.lookup "b" = some cexBlacklistMod ∧
    cexBlacklistMod.action = "blacklist" ∧
    get_series_by_tags cexBlacklistMods
      (buildSystemTags cexBlacklistMods [toTagRow cexBlacklistRow])
      [cexBlacklistRow] ["b"] = [cexBlacklistRow] := by
  refine ⟨rfl, rfl, ?_⟩
  rfl

end VibeCBR
